import Mathlib

/-!
Verification development for the MLB contract-advisor valuation engine.

The definitions below are a shallow embedding of the Python source:

* src/backend/app/utils.py                      (constants, normalize_name,
                                                 is_pitcher, get_position_group)
* src/backend/app/services/prediction_service.py (PredictionService.predict,
                                                 _predict_batter, _predict_pitcher,
                                                 _find_comparables)
* src/backend/app/api/predictions.py            (create_prediction validation,
                                                 find_comparables_by_recent_performance)
* src/backend/app/api/chat.py                   (_build_two_way_context)
* src/backend/app/services/context_service.py   (build_two_way_context)
* src/Data/integrate_with_spotrac_improved.py   (normalize_name, get_name_parts,
                                                 find_player_match)

Numeric columns are modelled with exact rationals (the claims under study do not
depend on binary floating point rounding), machine integers with Int, strings
with String, and free-text names with List Char.  The external library routines
the source relies on are modelled by their documented semantics: the Unicode
NFD decomposition of unicodedata is given on the Latin accented repertoire that
occurs in player names (all other characters decompose to themselves), numpy's
exp is carried as an uninterpreted rational function inside the model-artifact
record (none of the claims depend on its values), and both Python's list.sort
and pandas' Series.nlargest(keep = first) are modelled by a stable descending
insertion sort, which is their documented tie behaviour.
-/

namespace MLB

/-! ### Constants from src/backend/app/utils.py -/

/-- PITCHER_POSITIONS from utils.py. -/
def PITCHER_POSITIONS : List String := ["SP", "RP", "P", "CL"]

/-- POSITION_GROUPS from utils.py, as an association list. -/
def POSITION_GROUPS : List (String × String) :=
  [("SP", "SP"), ("RP", "RP"), ("CL", "RP"), ("P", "SP"),
   ("C", "C"), ("1B", "1B"), ("2B", "2B"), ("3B", "3B"), ("SS", "SS"),
   ("LF", "OF"), ("CF", "OF"), ("RF", "OF"), ("OF", "OF"), ("DH", "DH")]

/-- MAX_CONFIDENCE_SCORE from utils.py. -/
def MAX_CONFIDENCE_SCORE : ℚ := 95

/-- Association lookup used for the dict accesses of the source
(own recursion so that membership lemmas are immediate). -/
def assocFind {α β : Type} [DecidableEq α] : List (α × β) → α → Option β
  | [], _ => none
  | (k, v) :: t, c => if k = c then some v else assocFind t c

/-- ASCII upper-casing table modelling Python str.upper on the ASCII
position strings the role helpers receive. -/
def asciiUpperTable : List (Char × Char) :=
  [('a', 'A'), ('b', 'B'), ('c', 'C'), ('d', 'D'), ('e', 'E'), ('f', 'F'),
   ('g', 'G'), ('h', 'H'), ('i', 'I'), ('j', 'J'), ('k', 'K'), ('l', 'L'),
   ('m', 'M'), ('n', 'N'), ('o', 'O'), ('p', 'P'), ('q', 'Q'), ('r', 'R'),
   ('s', 'S'), ('t', 'T'), ('u', 'U'), ('v', 'V'), ('w', 'W'), ('x', 'X'),
   ('y', 'Y'), ('z', 'Z')]

/-- Python str.upper for one character. -/
def pyUpperChar (c : Char) : Char :=
  (assocFind asciiUpperTable c).getD c

/-- Python str.upper for a position string. -/
def pyUpper (s : String) : String :=
  String.mk (s.data.map pyUpperChar)

/-- is_pitcher from utils.py: position.upper() in PITCHER_POSITIONS. -/
def is_pitcher (position : String) : Bool :=
  pyUpper position ∈ PITCHER_POSITIONS

/-- get_position_group from utils.py: POSITION_GROUPS.get(position.upper(), OF). -/
def get_position_group (position : String) : String :=
  (assocFind POSITION_GROUPS (pyUpper position)).getD "OF"

/-! ### Character-level model of the normalizer's library calls

unicodedata.normalize(NFD, s) followed by dropping category-Mn characters is
modelled by nfdChar: the table lists the NFD decompositions of the precomposed
Latin letters that occur in the corpus; every character outside the table is
its own decomposition (in particular every unaccented character).  Category Mn
is modelled by the combining-diacritics block U+0300 - U+036F, which contains
every mark produced by the table. -/

/-- Combining marks used by the decomposition table. -/
def markGrave : Char := Char.ofNat 0x300
def markAcute : Char := Char.ofNat 0x301
def markTilde : Char := Char.ofNat 0x303
def markUmlaut : Char := Char.ofNat 0x308
def markCedilla : Char := Char.ofNat 0x327

/-- NFD decompositions of the accented Latin letters of the name corpus. -/
def nfdTable : List (Char × List Char) :=
  [('á', ['a', markAcute]), ('é', ['e', markAcute]), ('í', ['i', markAcute]),
   ('ó', ['o', markAcute]), ('ú', ['u', markAcute]), ('ñ', ['n', markTilde]),
   ('ü', ['u', markUmlaut]), ('ç', ['c', markCedilla]),
   ('à', ['a', markGrave]), ('è', ['e', markGrave]), ('ö', ['o', markUmlaut]),
   ('Á', ['A', markAcute]), ('É', ['E', markAcute]), ('Í', ['I', markAcute]),
   ('Ó', ['O', markAcute]), ('Ú', ['U', markAcute]), ('Ñ', ['N', markTilde]),
   ('Ü', ['U', markUmlaut]), ('Ç', ['C', markCedilla])]

/-- One character of unicodedata.normalize(NFD, s). -/
def nfdChar (c : Char) : List Char :=
  (assocFind nfdTable c).getD [c]

/-- Category Mn test of the source's mark-dropping comprehension. -/
def isMn (c : Char) : Bool :=
  0x300 ≤ c.toNat && c.toNat ≤ 0x36F

/-- ASCII lowering table modelling str.lower (the normalizer only meets
ASCII letters at the lowering stage: accented letters were decomposed and
stripped of their marks earlier in the pipeline). -/
def asciiLowerTable : List (Char × Char) :=
  [('A', 'a'), ('B', 'b'), ('C', 'c'), ('D', 'd'), ('E', 'e'), ('F', 'f'),
   ('G', 'g'), ('H', 'h'), ('I', 'i'), ('J', 'j'), ('K', 'k'), ('L', 'l'),
   ('M', 'm'), ('N', 'n'), ('O', 'o'), ('P', 'p'), ('Q', 'q'), ('R', 'r'),
   ('S', 's'), ('T', 't'), ('U', 'u'), ('V', 'v'), ('W', 'w'), ('X', 'x'),
   ('Y', 'y'), ('Z', 'z')]

/-- Python str.lower on one character. -/
def pyLowerChar (c : Char) : Char :=
  (assocFind asciiLowerTable c).getD c

/-- Python whitespace class of str.split and the regex class backslash-s. -/
def isPySpace (c : Char) : Bool :=
  c = ' ' || c = '\t' || c = '\n' || c = '\r' || c = Char.ofNat 0x0B || c = Char.ofNat 0x0C

/-- Python regex word class backslash-w: ASCII word characters plus the
non-ASCII letters (modelled as every non-ASCII non-mark character; exact on
the letter repertoire of player names). -/
def isWordChar (c : Char) : Bool :=
  ('a' ≤ c && c ≤ 'z') || ('A' ≤ c && c ≤ 'Z') || ('0' ≤ c && c ≤ '9') ||
    c = '_' || (0x80 ≤ c.toNat && !isMn c)

/-- Characters kept by re.sub removing everything outside word chars,
whitespace and hyphens. -/
def keepChar (c : Char) : Bool :=
  isWordChar c || isPySpace c || c = '-'

/-! ### normalize_name (utils.py lines 71-105; identical algorithm in
src/Data/integrate_with_spotrac_improved.py lines 31-63) -/

/-- NAME_SUFFIXES from utils.py, in source order. -/
def NAME_SUFFIXES : List (List Char) :=
  [" jr.".toList, " jr".toList, " sr.".toList, " sr".toList,
   " ii".toList, " iii".toList, " iv".toList, " v".toList]

/-- Python s.lower() over a whole string. -/
def pyLower (l : List Char) : List Char := l.map pyLowerChar

/-- Python s.endswith(t). -/
def endsWithList (l t : List Char) : Bool := List.isSuffixOf t l

/-- Steps 1 of normalize_name: NFD decomposition then dropping Mn marks. -/
def deaccent (l : List Char) : List Char :=
  (l.flatMap nfdChar).filter (fun c => !isMn c)

/-- Step 2 of normalize_name: strip the first matching generational suffix
(the endswith test runs on the lowercased string, the slice on the original,
and the loop breaks after the first hit). -/
def stripNameTail (l : List Char) : List Char :=
  match NAME_SUFFIXES.find? (fun suf => endsWithList (pyLower l) suf) with
  | some suf => l.take (l.length - suf.length)
  | none => l

/-- Python s.split() minus-one-argument form: split on whitespace runs,
dropping empty pieces.  acc carries the current word reversed. -/
def splitWsAux : List Char → List Char → List (List Char)
  | [], acc => if acc.isEmpty then [] else [acc.reverse]
  | c :: cs, acc =>
      if isPySpace c then
        if acc.isEmpty then splitWsAux cs [] else acc.reverse :: splitWsAux cs []
      else splitWsAux cs (c :: acc)

/-- Python s.split() with no argument. -/
def splitWs (l : List Char) : List (List Char) := splitWsAux l []

/-- Python single-space join of words. -/
def joinSpace : List (List Char) → List Char
  | [] => []
  | [w] => w
  | w :: ws => w ++ ' ' :: joinSpace ws

/-- Python s.strip() with no argument. -/
def pyStrip (l : List Char) : List Char :=
  ((l.dropWhile isPySpace).reverse.dropWhile isPySpace).reverse

/-- normalize_name from utils.py: deaccent, strip one trailing suffix, drop
characters outside word chars, whitespace and hyphens, then
(space-join of split) lowered and stripped.  Empty input maps to empty. -/
def normalize_name (l : List Char) : List Char :=
  let s1 := deaccent l
  let s2 := stripNameTail s1
  let s3 := s2.filter keepChar
  pyStrip (pyLower (joinSpace (splitWs s3)))

/-! ### find_player_match (integrate_with_spotrac_improved.py lines 66-139) -/

/-- One row of the FanGraphs stats table; only the Name and Season columns
drive the matching cascade, the remaining stat columns ride along untouched. -/
structure StatRow where
  Name : List Char
  Season : Int
deriving DecidableEq

/-- get_name_parts: first and last token of the normalized name
(parts[0] and parts[-1] when two or more tokens exist). -/
def get_name_parts (name : List Char) : List Char × List Char :=
  match splitWs (normalize_name name) with
  | [] => ([], [])
  | [p] => ([], p)
  | p₁ :: p₂ :: rest => (p₁, ((p₂ :: rest).getLast?).getD p₂)

/-- Distinct values of a column, as pandas Series.unique computes them
(only the count of the result is consumed by the resolver). -/
def distinctVals : List (List Char) → List (List Char)
  | [] => []
  | x :: xs => let r := distinctVals xs; if x ∈ r then r else x :: r

/-- The normalized-name column the resolver precomputes. -/
def normOf (r : StatRow) : List Char := normalize_name r.Name

/-- Python substring containment (needle in hay), the semantics of the
resolver's str.contains calls on its metacharacter-free patterns. -/
def containsSub (needle : List Char) : List Char → Bool
  | [] => needle.isEmpty
  | c :: t => List.isPrefixOf needle (c :: t) || containsSub needle t

/-- find_player_match: the five-strategy cascade.  pandas str.contains with
its default regex flag coincides with substring search here because
normalized names and surnames contain no regex metacharacters, and the
strategy-3 pattern (space surname dollar, alternated with caret surname
space) is expanded into its suffix/prefix reading. -/
def find_player_match (player_name : List Char) (stats : List StatRow)
    (years : List Int) : Option (List StatRow) × String :=
  let target := normalize_name player_name
  let parts := get_name_parts player_name
  let first := parts.1
  let last := parts.2
  let yf := stats.filter (fun r => decide (r.Season ∈ years))
  if yf.isEmpty then (none, "No data in year range") else
  let exact := yf.filter (fun r => decide (normOf r = target))
  if exact.length > 0 then (some exact, "exact_normalized") else
  let s2 : Option (List StatRow × String) :=
    match first, last with
    | fi :: _, _ :: _ =>
      let pm := yf.filter (fun r =>
        containsSub last (normOf r) && List.isPrefixOf [fi] (normOf r))
      if pm.length = 1 ∨ (pm.length > 0 ∧ (distinctVals (pm.map normOf)).length = 1)
      then some (pm, "last_name_first_initial") else none
    | _, _ => none
  match s2 with
  | some (rows, reason) => (some rows, reason)
  | none =>
  let s3 : Option (List StatRow × String) :=
    if last ≠ [] then
      let lm := yf.filter (fun r =>
        endsWithList (normOf r) (' ' :: last) || List.isPrefixOf (last ++ [' ']) (normOf r))
      if lm.length > 0 then
        if (distinctVals (lm.map normOf)).length = 1 then some (lm, "unique_last_name")
        else if first ≠ [] then
          let refined := lm.filter (fun r => containsSub first (normOf r))
          if refined.length > 0 then some (refined, "last_name_partial_first") else none
        else none
      else none
    else none
  match s3 with
  | some (rows, reason) => (some rows, reason)
  | none =>
  let s4 : Option (List StatRow × String) :=
    match first, last with
    | _ :: _, _ :: _ =>
      let cb := yf.filter (fun r =>
        containsSub first (normOf r) && containsSub last (normOf r))
      if cb.length > 0 then some (cb, "contains_both_names") else none
    | _, _ => none
  match s4 with
  | some (rows, reason) => (some rows, reason)
  | none =>
  let s5 : Option (List StatRow × String) :=
    if last ≠ [] ∧ last.length > 3 then
      let pl := yf.filter (fun r => containsSub (last.take 4) (normOf r))
      if pl.length > 0 ∧ (distinctVals (pl.map normOf)).length = 1
      then some (pl, "partial_last_name") else none
    else none
  match s5 with
  | some (rows, reason) => (some rows, reason)
  | none => (none, "No match found")

/-! ### Default stat dictionaries (utils.py lines 34-61) -/

/-- DEFAULT_BATTER_STATS from utils.py. -/
def DEFAULT_BATTER_STATS : List (String × ℚ) :=
  [("wrc_plus", 100), ("avg", 0.250), ("obp", 0.320), ("slg", 0.400), ("hr", 15),
   ("exit_velo", 88.5), ("barrel_rate", 8.0), ("max_exit_velo", 110.0),
   ("hard_hit_pct", 40.0), ("chase_rate", 50.0), ("whiff_rate", 50.0)]

/-- DEFAULT_PITCHER_STATS from utils.py. -/
def DEFAULT_PITCHER_STATS : List (String × ℚ) :=
  [("era", 4.00), ("fip", 4.00), ("k_9", 8.0), ("bb_9", 3.0), ("ip", 150),
   ("fb_velocity", 50.0), ("fb_spin", 50.0), ("xera", 50.0), ("k_percent", 50.0),
   ("bb_percent", 50.0), ("whiff_percent_pitcher", 50.0), ("chase_percent_pitcher", 50.0)]

/-- Total dict access for keys that are present in the source dictionaries. -/
def dget (l : List (String × ℚ)) (k : String) : ℚ := (assocFind l k).getD 0

/-- Python request.field or default: None and 0 both fall back (truthiness
of the or operator on Optional floats). -/
def pyOr (v : Option ℚ) (d : ℚ) : ℚ :=
  match v with
  | none => d
  | some x => if x = 0 then d else x

/-! ### Request and artifact records (schemas.py, prediction_service.py) -/

/-- PredictionRequest from schemas.py (numeric payload; the optional fields
default to none exactly as the pydantic model defaults them to None). -/
structure PredictionRequest where
  name : String := ""
  position : String
  age : Int
  war_3yr : ℚ
  wrc_plus_3yr : Option ℚ := none
  avg_3yr : Option ℚ := none
  obp_3yr : Option ℚ := none
  slg_3yr : Option ℚ := none
  hr_3yr : Option ℚ := none
  era_3yr : Option ℚ := none
  fip_3yr : Option ℚ := none
  k_9_3yr : Option ℚ := none
  bb_9_3yr : Option ℚ := none
  ip_3yr : Option ℚ := none
  avg_exit_velo : Option ℚ := none
  barrel_rate : Option ℚ := none
  max_exit_velo : Option ℚ := none
  hard_hit_pct : Option ℚ := none
  chase_rate : Option ℚ := none
  whiff_rate : Option ℚ := none
  fb_velocity : Option ℚ := none
  fb_spin : Option ℚ := none
  xera : Option ℚ := none
  k_percent : Option ℚ := none
  bb_percent : Option ℚ := none
  whiff_percent_pitcher : Option ℚ := none
  chase_percent_pitcher : Option ℚ := none

/-- A loaded pair of quantile regressors (stored only when both files
exist, prediction_service.py lines 64-72). -/
structure QuantilePair where
  low : List ℚ → ℚ
  high : List ℚ → ℚ

/-- The loaded artifacts for one aav model: the regressors and the scaler
are opaque trained objects, modelled as uninterpreted functions on feature
vectors; metrics and config are the loaded joblib payloads. -/
structure ModelArtifacts where
  model : List ℚ → ℚ
  scaler : List ℚ → List ℚ
  features : List String
  feature_importances : List ℚ
  mae : ℚ
  within_5m : ℚ
  is_log_transformed : Bool
  quantile : Option QuantilePair

/-- The loaded artifacts for one length model. -/
structure LengthArtifacts where
  model : List ℚ → ℚ
  scaler : List ℚ → List ℚ
  features : List String

/-- One row of the master contract dataset used for comparables. -/
structure ContractRow where
  player_name : String
  position : String
  year_signed : Int
  age_at_signing : Int
  AAV : ℚ
  length : Int
  WAR_3yr : ℚ
deriving DecidableEq

/-- ComparablePlayer from schemas.py. -/
structure ComparablePlayer where
  name : String
  position : String
  signing_team : Option String := none
  year_signed : Int
  age_at_signing : Int
  aav : ℚ
  length : Int
  war_3yr : ℚ
  similarity_score : ℚ
  is_extension : Bool
deriving DecidableEq

/-- The loaded PredictionService singleton: four model bundles, the
comparables table (None when no csv was found) and the loaded flag.
npExp carries numpy.exp as an uninterpreted rational function. -/
structure PredictionService where
  batter_aav : ModelArtifacts
  batter_length : LengthArtifacts
  pitcher_aav : ModelArtifacts
  pitcher_length : LengthArtifacts
  contracts_df : Option (List ContractRow)
  loaded : Bool
  npExp : ℚ → ℚ

/-- The dict-with-default read feature_values.get(f, 0) used when the
feature array is assembled. -/
def lookupD (fv : List (String × ℚ)) (k : String) : ℚ := (assocFind fv k).getD 0

/-- The ordered feature array of np.array([[...get(f, 0)...]]). -/
def featureArray (features : List String) (fv : List (String × ℚ)) : List ℚ :=
  features.map (lookupD fv)

/-- Python round on an exact rational: round-half-to-even. -/
def roundHalfEvenQ (x : ℚ) : ℤ :=
  let f := ⌊x⌋
  if x - f < 1 / 2 then f
  else if 1 / 2 < x - f then f + 1
  else if 2 ∣ f then f else f + 1

/-- Python round(x, 1). -/
def round1 (x : ℚ) : ℚ := (roundHalfEvenQ (10 * x) : ℚ) / 10

/-! ### Stable descending sort

Models both list.sort(key = minus score) from predictions.py (Timsort,
documented stable) and Series.nlargest with its default keep = first from
prediction_service.py (descending order, earlier index wins ties). -/

/-- Insert one element into a descending-sorted list, after every strictly
greater key and before every equal-or-smaller key (the incoming element is
the earlier one in the original order, so this is the stable placement). -/
def insDesc {α : Type} (key : α → ℚ) (x : α) : List α → List α
  | [] => [x]
  | y :: ys => if key x < key y then y :: insDesc key x ys else x :: y :: ys

/-- Stable descending insertion sort. -/
def sortDesc {α : Type} (key : α → ℚ) : List α → List α
  | [] => []
  | x :: xs => insDesc key x (sortDesc key xs)

/-- Top-5 feature importances: dict(zip(features, importances)) sorted by
descending weight, truncated to five. -/
def topFeatureImportance (features : List String) (imps : List ℚ) : List (String × ℚ) :=
  (sortDesc Prod.snd (features.zip imps)).take 5

/-! ### _find_comparables (prediction_service.py lines 319-386) -/

/-- Row membership in the pitcher set as the dataframe filter tests it:
raw string membership, without the upper-casing of is_pitcher. -/
def posInPitcherSet (p : String) : Bool := p ∈ PITCHER_POSITIONS

/-- df position to group: POSITION_GROUPS.map(...).fillna(OF), again with no
upper-casing, unlike get_position_group on the request side. -/
def rowPosGroup (p : String) : String := (assocFind POSITION_GROUPS p).getD "OF"

/-- The broad-type filter at the top of _find_comparables. -/
def filteredContracts (table : List ContractRow) (isP : Bool) : List ContractRow :=
  if isP then table.filter (fun r => posInPitcherSet r.position)
  else table.filter (fun r => !posInPitcherSet r.position)

/-- Maximum of a series (guarded nonempty at every use site). -/
def listMax : List ℚ → ℚ
  | [] => 0
  | x :: xs => xs.foldl max x

/-- A normalization denominator: the series maximum when positive, else 1. -/
def maxOr1 (l : List ℚ) : ℚ := if 0 < listMax l then listMax l else 1

/-- The WAR delta column abs(df WAR_3yr - request.war_3yr). -/
def warDiffs (req : PredictionRequest) (df : List ContractRow) : List ℚ :=
  df.map (fun s => |s.WAR_3yr - req.war_3yr|)

/-- The age delta column abs(df age_at_signing - request.age). -/
def ageDiffs (req : PredictionRequest) (df : List ContractRow) : List ℚ :=
  df.map (fun s => |(s.age_at_signing : ℚ) - (req.age : ℚ)|)

/-- The recency column current_year - year_signed (no absolute value). -/
def yearDiffs (df : List ContractRow) (year : Int) : List ℚ :=
  df.map (fun s => ((year - s.year_signed : ℤ) : ℚ))

/-- Position component: 40 when the row group equals the request group. -/
def posTerm (req : PredictionRequest) (r : ContractRow) : ℚ :=
  if rowPosGroup r.position = get_position_group req.position then 40 else 0

/-- WAR component: (1 - delta over max delta) times 35. -/
def warTerm (req : PredictionRequest) (df : List ContractRow) (r : ContractRow) : ℚ :=
  (1 - |r.WAR_3yr - req.war_3yr| / maxOr1 (warDiffs req df)) * 35

/-- Age component: (1 - delta over max delta) times 15. -/
def ageTerm (req : PredictionRequest) (df : List ContractRow) (r : ContractRow) : ℚ :=
  (1 - |(r.age_at_signing : ℚ) - (req.age : ℚ)| / maxOr1 (ageDiffs req df)) * 15

/-- Recency component: (1 - years-ago over max years-ago) times 10. -/
def recTerm (df : List ContractRow) (year : Int) (r : ContractRow) : ℚ :=
  (1 - ((year - r.year_signed : ℤ) : ℚ) / maxOr1 (yearDiffs df year)) * 10

/-- Total similarity of one filtered row against the request. -/
def comparableSimilarity (req : PredictionRequest) (df : List ContractRow)
    (year : Int) (r : ContractRow) : ℚ :=
  posTerm req r + warTerm req df r + ageTerm req df r + recTerm df year r

/-- A row paired with its original dataframe index and its score. -/
structure ScoredRow (ρ : Type) where
  idx : Nat
  row : ρ
  score : ℚ

/-- The order a stable descending sort realises: strictly greater score
first, and original table order among equal scores. -/
def rankedBefore {ρ : Type} (a b : ScoredRow ρ) : Prop :=
  b.score < a.score ∨ (a.score = b.score ∧ a.idx < b.idx)

/-- Rows numbered by original position, starting at n. -/
def withIdx {α : Type} : List α → Nat → List (Nat × α)
  | [], _ => []
  | x :: xs, n => (n, x) :: withIdx xs (n + 1)

/-- Every row scored, in original order. -/
def scoreRows {ρ : Type} (sim : ρ → ℚ) (df : List ρ) : List (ScoredRow ρ) :=
  (withIdx df 0).map (fun p => ⟨p.1, p.2, sim p.2⟩)

/-- similarity.nlargest(n): the stable descending prefix of length n. -/
def topComparables (req : PredictionRequest) (df : List ContractRow)
    (year : Int) (n : Nat) : List (ScoredRow ContractRow) :=
  (sortDesc (fun t => t.score) (scoreRows (comparableSimilarity req df year) df)).take n

/-- One output record of _find_comparables, with the pre-free-agency
extension flag (age at most 25 and length at least 6) and the score rounded
to one decimal. -/
def mkComparable (t : ScoredRow ContractRow) : ComparablePlayer :=
  { name := t.row.player_name, position := t.row.position, signing_team := none,
    year_signed := t.row.year_signed, age_at_signing := t.row.age_at_signing,
    aav := t.row.AAV, length := t.row.length, war_3yr := t.row.WAR_3yr,
    similarity_score := round1 t.score,
    is_extension := decide (t.row.age_at_signing ≤ 25 ∧ 6 ≤ t.row.length) }

/-- _find_comparables: empty when the table failed to load, is empty, or
holds no row of the requested broad type; otherwise the top n stable-sorted
similarity matches. -/
def find_comparables (svc : PredictionService) (req : PredictionRequest)
    (isP : Bool) (year : Int) (n : Nat) : List ComparablePlayer :=
  match svc.contracts_df with
  | none => []
  | some table =>
    if table.length = 0 then []
    else
      let df := filteredContracts table isP
      if df.length = 0 then []
      else (topComparables req df year n).map mkComparable

/-! ### _predict_batter / _predict_pitcher (prediction_service.py 122-317) -/

/-- The batter feature_values dict, entries in assignment order (keys are
distinct, so association-list lookup equals dict lookup). -/
def batterFeatureValues (req : PredictionRequest) : List (String × ℚ) :=
  let pos_group := get_position_group req.position
  let avg3 := pyOr req.avg_3yr (dget DEFAULT_BATTER_STATS "avg")
  let slg3 := pyOr req.slg_3yr (dget DEFAULT_BATTER_STATS "slg")
  let avg_exit_velo := pyOr req.avg_exit_velo (dget DEFAULT_BATTER_STATS "exit_velo")
  let barrel_rate := pyOr req.barrel_rate (dget DEFAULT_BATTER_STATS "barrel_rate")
  [("age_at_signing", (req.age : ℚ)),
   ("WAR_3yr", req.war_3yr),
   ("wRC_plus_3yr", pyOr req.wrc_plus_3yr (dget DEFAULT_BATTER_STATS "wrc_plus")),
   ("AVG_3yr", avg3),
   ("OBP_3yr", pyOr req.obp_3yr (dget DEFAULT_BATTER_STATS "obp")),
   ("SLG_3yr", slg3),
   ("HR_3yr", pyOr req.hr_3yr (dget DEFAULT_BATTER_STATS "hr")),
   ("seasons_with_data", 3),
   ("avg_exit_velo", avg_exit_velo),
   ("barrel_rate", barrel_rate),
   ("max_exit_velo", pyOr req.max_exit_velo (dget DEFAULT_BATTER_STATS "max_exit_velo")),
   ("hard_hit_pct", pyOr req.hard_hit_pct (dget DEFAULT_BATTER_STATS "hard_hit_pct")),
   ("chase_rate", pyOr req.chase_rate (dget DEFAULT_BATTER_STATS "chase_rate")),
   ("whiff_rate", pyOr req.whiff_rate (dget DEFAULT_BATTER_STATS "whiff_rate")),
   ("peak_efficiency", if 0 < req.age then req.war_3yr / (req.age : ℚ) else 0),
   ("ISO_3yr", slg3 - avg3),
   ("power_consistency", avg_exit_velo * barrel_rate / 100),
   ("has_statcast", if req.avg_exit_velo.isSome || req.barrel_rate.isSome then 1 else 0),
   ("pos_1B", if pos_group = "1B" then 1 else 0),
   ("pos_2B", if pos_group = "2B" then 1 else 0),
   ("pos_3B", if pos_group = "3B" then 1 else 0),
   ("pos_C", if pos_group = "C" then 1 else 0),
   ("pos_DH", if pos_group = "DH" then 1 else 0),
   ("pos_OF", if pos_group = "OF" then 1 else 0),
   ("pos_SS", if pos_group = "SS" then 1 else 0)]

/-- The pitcher feature_values dict, entries in assignment order. -/
def pitcherFeatureValues (req : PredictionRequest) : List (String × ℚ) :=
  let k_9 := pyOr req.k_9_3yr (dget DEFAULT_PITCHER_STATS "k_9")
  let bb_9 := pyOr req.bb_9_3yr (dget DEFAULT_PITCHER_STATS "bb_9")
  [("age_at_signing", (req.age : ℚ)),
   ("WAR_3yr", req.war_3yr),
   ("ERA_3yr", pyOr req.era_3yr (dget DEFAULT_PITCHER_STATS "era")),
   ("FIP_3yr", pyOr req.fip_3yr (dget DEFAULT_PITCHER_STATS "fip")),
   ("K_9_3yr", k_9),
   ("BB_9_3yr", bb_9),
   ("IP_3yr", pyOr req.ip_3yr (dget DEFAULT_PITCHER_STATS "ip")),
   ("seasons_with_data", 3),
   ("is_starter", if pyUpper req.position = "SP" then 1 else 0),
   ("peak_efficiency", if 0 < req.age then req.war_3yr / (req.age : ℚ) else 0),
   ("control_metric", k_9 - bb_9),
   ("fb_velocity", pyOr req.fb_velocity (dget DEFAULT_PITCHER_STATS "fb_velocity")),
   ("fb_spin", pyOr req.fb_spin (dget DEFAULT_PITCHER_STATS "fb_spin")),
   ("xera", pyOr req.xera (dget DEFAULT_PITCHER_STATS "xera")),
   ("k_percent", pyOr req.k_percent (dget DEFAULT_PITCHER_STATS "k_percent")),
   ("bb_percent", pyOr req.bb_percent (dget DEFAULT_PITCHER_STATS "bb_percent")),
   ("whiff_percent_pitcher",
     pyOr req.whiff_percent_pitcher (dget DEFAULT_PITCHER_STATS "whiff_percent_pitcher")),
   ("chase_percent_pitcher",
     pyOr req.chase_percent_pitcher (dget DEFAULT_PITCHER_STATS "chase_percent_pitcher")),
   ("has_statcast", if req.fb_velocity.isSome || req.xera.isSome then 1 else 0)]

/-- The dict returned by _predict_batter and _predict_pitcher. -/
structure PredictResult where
  predicted_aav : ℚ
  predicted_aav_low : ℚ
  predicted_aav_high : ℚ
  predicted_length : Int
  confidence_score : ℚ
  feature_importance : List (String × ℚ)
  comparables : List ComparablePlayer
  model_accuracy : ℚ

/-- _predict_batter (the year argument of the source is unused in the body;
_find_comparables re-reads the current year, modelled by the same year). -/
def predict_batter (svc : PredictionService) (req : PredictionRequest)
    (year : Int) : PredictResult :=
  let fv := batterFeatureValues req
  let X := featureArray svc.batter_aav.features fv
  let X_scaled := svc.batter_aav.scaler X
  let predicted_aav_raw := svc.batter_aav.model X_scaled
  let predicted_aav :=
    if svc.batter_aav.is_log_transformed then svc.npExp predicted_aav_raw - 0.1
    else predicted_aav_raw
  let mae := svc.batter_aav.mae
  let lowHigh : ℚ × ℚ :=
    match svc.batter_aav.quantile with
    | some q =>
      let aav_low_raw := q.low X_scaled
      let aav_high_raw := q.high X_scaled
      if svc.batter_aav.is_log_transformed then
        (max 0.5 (svc.npExp aav_low_raw - 0.1), svc.npExp aav_high_raw - 0.1)
      else (max 0.5 aav_low_raw, aav_high_raw)
    | none => (max 0.5 (predicted_aav - mae), predicted_aav + mae)
  let X_length := featureArray svc.batter_length.features fv
  let predicted_length := svc.batter_length.model (svc.batter_length.scaler X_length)
  let accuracy := svc.batter_aav.within_5m
  { predicted_aav := predicted_aav,
    predicted_aav_low := lowHigh.1,
    predicted_aav_high := lowHigh.2,
    predicted_length := max 1 (roundHalfEvenQ predicted_length),
    confidence_score := min MAX_CONFIDENCE_SCORE accuracy,
    feature_importance :=
      topFeatureImportance svc.batter_aav.features svc.batter_aav.feature_importances,
    comparables := find_comparables svc req false year 5,
    model_accuracy := accuracy }

/-- _predict_pitcher. -/
def predict_pitcher (svc : PredictionService) (req : PredictionRequest)
    (year : Int) : PredictResult :=
  let fv := pitcherFeatureValues req
  let X := featureArray svc.pitcher_aav.features fv
  let X_scaled := svc.pitcher_aav.scaler X
  let predicted_aav_raw := svc.pitcher_aav.model X_scaled
  let predicted_aav :=
    if svc.pitcher_aav.is_log_transformed then svc.npExp predicted_aav_raw - 0.1
    else predicted_aav_raw
  let mae := svc.pitcher_aav.mae
  let lowHigh : ℚ × ℚ :=
    match svc.pitcher_aav.quantile with
    | some q =>
      let aav_low_raw := q.low X_scaled
      let aav_high_raw := q.high X_scaled
      if svc.pitcher_aav.is_log_transformed then
        (max 0.5 (svc.npExp aav_low_raw - 0.1), svc.npExp aav_high_raw - 0.1)
      else (max 0.5 aav_low_raw, aav_high_raw)
    | none => (max 0.5 (predicted_aav - mae), predicted_aav + mae)
  let X_length := featureArray svc.pitcher_length.features fv
  let predicted_length := svc.pitcher_length.model (svc.pitcher_length.scaler X_length)
  let accuracy := svc.pitcher_aav.within_5m
  { predicted_aav := predicted_aav,
    predicted_aav_low := lowHigh.1,
    predicted_aav_high := lowHigh.2,
    predicted_length := max 1 (roundHalfEvenQ predicted_length),
    confidence_score := min MAX_CONFIDENCE_SCORE accuracy,
    feature_importance :=
      topFeatureImportance svc.pitcher_aav.features svc.pitcher_aav.feature_importances,
    comparables := find_comparables svc req true year 5,
    model_accuracy := accuracy }

/-- PredictionService.predict: role dispatch on the position string (the
not-loaded RuntimeError branch is modelled by the 503 path of
create_prediction below, which guards every call). -/
def predict (svc : PredictionService) (year : Int) (req : PredictionRequest) : PredictResult :=
  if is_pitcher req.position then predict_pitcher svc req year
  else predict_batter svc req year

/-- create_prediction (predictions.py lines 121-158): the 503 readiness
check, then the role-specific required-statistic validation, then the
prediction; errors are the HTTP status codes raised. -/
def create_prediction (svc : PredictionService) (year : Int)
    (req : PredictionRequest) : Except Nat PredictResult :=
  if !svc.loaded then .error 503
  else if is_pitcher req.position then
    if req.era_3yr = none ∧ req.fip_3yr = none then .error 400
    else .ok (predict svc year req)
  else
    if req.wrc_plus_3yr = none ∧ req.avg_3yr = none then .error 400
    else .ok (predict svc year req)

/-! ### find_comparables_by_recent_performance (predictions.py lines 28-118) -/

/-- One Contract row of the database (database.py), with the columns this
endpoint touches; recent_war_3yr is nullable. -/
structure DbContract where
  player_name : String
  position : String
  signing_team : Option String := none
  year_signed : Int
  age_at_signing : Int
  aav : ℚ
  length : Int
  recent_war_3yr : Option ℚ := none
deriving DecidableEq

/-- Recent WAR of a row the query already filtered to be non-null. -/
def recentWar (c : DbContract) : ℚ := c.recent_war_3yr.getD 0

/-- The SQL query: recent_war_3yr is not null, then the broad-type filter
(raw string membership, as the SQL IN list tests it). -/
def recentQueryRows (db : List DbContract) (position : String) : List DbContract :=
  let q := db.filter (fun c => c.recent_war_3yr.isSome)
  if is_pitcher position then q.filter (fun c => posInPitcherSet c.position)
  else q.filter (fun c => !posInPitcherSet c.position)

/-- Position component of the recent-performance score (this pass maps the
contract position through get_position_group, with upper-casing). -/
def recentPosTerm (pos_group : String) (c : DbContract) : ℚ :=
  if get_position_group c.position = pos_group then 40 else 0

/-- Recent-WAR component. -/
def recentWarTerm (contracts : List DbContract) (target : ℚ) (c : DbContract) : ℚ :=
  (1 - |recentWar c - target| / maxOr1 (contracts.map (fun s => |recentWar s - target|))) * 35

/-- Age component. -/
def recentAgeTerm (contracts : List DbContract) (current_age : Int) (c : DbContract) : ℚ :=
  (1 - |(c.age_at_signing : ℚ) - (current_age : ℚ)|
      / maxOr1 (contracts.map (fun s => |(s.age_at_signing : ℚ) - (current_age : ℚ)|))) * 15

/-- Recency component. -/
def recentRecTerm (contracts : List DbContract) (year : Int) (c : DbContract) : ℚ :=
  (1 - ((year - c.year_signed : ℤ) : ℚ)
      / maxOr1 (contracts.map (fun s => ((year - s.year_signed : ℤ) : ℚ)))) * 10

/-- Total recent-performance similarity of one row. -/
def recentSimilarity (contracts : List DbContract) (target : ℚ) (pos_group : String)
    (current_age : Int) (year : Int) (c : DbContract) : ℚ :=
  recentPosTerm pos_group c + recentWarTerm contracts target c
    + recentAgeTerm contracts current_age c + recentRecTerm contracts year c

/-- The stable-sorted top n of the recent-performance pass. -/
def topRecent (db : List DbContract) (target : ℚ) (position : String)
    (current_age : Int) (year : Int) (n : Nat) : List (ScoredRow DbContract) :=
  let contracts := recentQueryRows db position
  let pos_group := get_position_group position
  (sortDesc (fun t => t.score)
    (scoreRows (recentSimilarity contracts target pos_group current_age year) contracts)).take n

/-- find_comparables_by_recent_performance: empty when the query returns
nothing, else the top n records carrying recent WAR and the extension
flag. -/
def find_comparables_by_recent_performance (db : List DbContract) (target : ℚ)
    (position : String) (current_age : Int) (year : Int) (n : Nat) : List ComparablePlayer :=
  let contracts := recentQueryRows db position
  if contracts.isEmpty then []
  else
    (topRecent db target position current_age year n).map (fun t =>
      { name := t.row.player_name, position := t.row.position,
        signing_team := t.row.signing_team, year_signed := t.row.year_signed,
        age_at_signing := t.row.age_at_signing, aav := t.row.aav,
        length := t.row.length, war_3yr := recentWar t.row,
        similarity_score := round1 t.score,
        is_extension := decide (t.row.age_at_signing ≤ (25 : ℤ) ∧ (6 : ℤ) ≤ t.row.length) })

/-! ### Two-way composition (chat.py _build_two_way_context lines 325-409,
context_service.py build_two_way_context lines 392-394) -/

/-- The pitching half of get_two_way_stats, in the branch where the three
averages exist (otherwise pydantic rejects the request and the code falls
back to the rough WAR heuristic, outside this composition path). -/
structure TwoWayPitchingStats where
  war_3yr : ℚ
  era_3yr : ℚ
  ip_3yr : ℚ

/-- The pitcher-role request _build_two_way_context constructs: position SP,
the default two-way age 29, and the pitching three-year averages. -/
def two_way_pitcher_request (name : String) (pst : TwoWayPitchingStats) : PredictionRequest :=
  { name := name, position := "SP", age := 29, war_3yr := pst.war_3yr,
    era_3yr := some pst.era_3yr, ip_3yr := some pst.ip_3yr }

/-- The combined two-way aav: the primary (batter) prediction is read back
from the response built by create_prediction, where it was scaled to
dollars, divided by one million again in chat.py, and added to the
pitcher-role point estimate (context_service.py line 394). -/
def two_way_combined_aav (svc : PredictionService) (year : Int)
    (batterReq : PredictionRequest) (pst : TwoWayPitchingStats) : ℚ :=
  let primary_aav_dollars := (predict svc year batterReq).predicted_aav * 1000000
  let batter_aav := primary_aav_dollars / 1000000
  let pitcher_aav := (predict svc year (two_way_pitcher_request batterReq.name pst)).predicted_aav
  batter_aav + pitcher_aav

/-! ### Concrete instances used by witnesses and counterexamples -/

/-- A constant regressor standing in for a loaded model artifact. -/
def constModel (v : ℚ) : List ℚ → ℚ := fun _ => v

/-- An identity scaler. -/
def idScaler : List ℚ → List ℚ := fun X => X

/-- A small aav artifact bundle. -/
def artW : ModelArtifacts :=
  { model := constModel 10, scaler := idScaler,
    features := ["age_at_signing", "WAR_3yr"], feature_importances := [0.6, 0.4],
    mae := 2, within_5m := 80, is_log_transformed := false, quantile := none }

/-- A small length artifact bundle. -/
def lenW : LengthArtifacts :=
  { model := constModel 4, scaler := idScaler, features := ["age_at_signing"] }

/-- A historical row: a catcher signed in 2015 at 30 with WAR 2. -/
def rowA : ContractRow :=
  { player_name := "A", position := "C", year_signed := 2015,
    age_at_signing := 30, AAV := 10, length := 5, WAR_3yr := 2 }

/-- Same profile as rowA but signed in 2025. -/
def rowB : ContractRow :=
  { player_name := "B", position := "C", year_signed := 2025,
    age_at_signing := 30, AAV := 12, length := 4, WAR_3yr := 2 }

/-- A two-row historical table. -/
def tableW : List ContractRow := [rowA, rowB]

/-- A loaded service over tableW. -/
def svcW : PredictionService :=
  { batter_aav := artW, batter_length := lenW, pitcher_aav := artW,
    pitcher_length := lenW, contracts_df := some tableW, loaded := true,
    npExp := fun x => x }

/-- A loaded service whose comparables csv was never found. -/
def svcNoTable : PredictionService :=
  { batter_aav := artW, batter_length := lenW, pitcher_aav := artW,
    pitcher_length := lenW, contracts_df := none, loaded := true,
    npExp := fun x => x }

/-- A loaded service whose batter aav regressor answers minus three
(nothing constrains the sign of an opaque regression artifact). -/
def svcBad : PredictionService :=
  { batter_aav :=
      { model := constModel (-3), scaler := idScaler,
        features := ["age_at_signing", "WAR_3yr"], feature_importances := [0.6, 0.4],
        mae := 1, within_5m := 80, is_log_transformed := false, quantile := none },
    batter_length := lenW, pitcher_aav := artW, pitcher_length := lenW,
    contracts_df := none, loaded := true, npExp := fun x => x }

/-- A well-formed batter request (wRC+ supplied, so it passes validation). -/
def reqBatW : PredictionRequest :=
  { position := "C", age := 30, war_3yr := 2, wrc_plus_3yr := some 100 }

/-- A loaded service over the one-row table [rowA]. -/
def svcOneRow : PredictionService :=
  { batter_aav := artW, batter_length := lenW, pitcher_aav := artW,
    pitcher_length := lenW, contracts_df := some [rowA], loaded := true,
    npExp := fun x => x }

/-- A well-formed pitcher request (ERA supplied). -/
def reqPitW : PredictionRequest :=
  { position := "SP", age := 30, war_3yr := 3, era_3yr := some 3.5 }

/-- A pitcher request with neither ERA nor FIP. -/
def reqPitMissing : PredictionRequest :=
  { position := "SP", age := 30, war_3yr := 3 }

/-- A batter request with neither wRC+ nor batting average. -/
def reqBatMissing : PredictionRequest :=
  { position := "C", age := 30, war_3yr := 2 }

/-- A stats table holding exactly one Aaron Judge row and nobody else. -/
def judgeTable : List StatRow := [⟨"Aaron Judge".toList, 2023⟩]

/-- The three seasons the resolver averages over. -/
def judgeYears : List Int := [2021, 2022, 2023]

/-! ## Theorems -/

/-- SP is a pitcher position. -/
theorem is_pitcher_SP : is_pitcher "SP" = true := by decide

/-- C is not a pitcher position. -/
theorem is_pitcher_C : is_pitcher "C" = false := by decide

/-- The comparables field of the batter predictor is the hitter-side
comparable search. -/
theorem predict_batter_comparables (svc : PredictionService)
    (req : PredictionRequest) (year : Int) :
    (predict_batter svc req year).comparables = find_comparables svc req false year 5 := rfl

/-- The comparables field of the pitcher predictor is the pitcher-side
comparable search. -/
theorem predict_pitcher_comparables (svc : PredictionService)
    (req : PredictionRequest) (year : Int) :
    (predict_pitcher svc req year).comparables = find_comparables svc req true year 5 := rfl

/-- In every branch of both role predictors the low bound is the max of 0.5
and a model value. -/
theorem low_floor_predict (svc : PredictionService) (year : Int)
    (req : PredictionRequest) : (0.5 : ℚ) ≤ (predict svc year req).predicted_aav_low := by
  unfold predict
  by_cases hp : is_pitcher req.position <;>
    simp only [hp, if_true, if_false, Bool.false_eq_true, predict_batter, predict_pitcher] <;>
    (cases hq : svc.pitcher_aav.quantile <;> cases hb : svc.batter_aav.quantile) <;>
    simp [hq, hb] <;> split <;> simp

/-- Claim C1 (amended): for every request accepted by the service, the low
bound predicted_aav_low is at least the 0.5 floor. -/
theorem predicted_aav_low_always_floored (svc : PredictionService) (year : Int)
    (req : PredictionRequest) (res : PredictResult)
    (h : create_prediction svc year req = .ok res) :
    (0.5 : ℚ) ≤ res.predicted_aav_low := by
  unfold create_prediction at h
  split at h
  · exact absurd h (by simp)
  · split at h
    · split at h
      · exact absurd h (by simp)
      · cases h; exact low_floor_predict svc year req
    · split at h
      · exact absurd h (by simp)
      · cases h; exact low_floor_predict svc year req

/-- Witness for C1's amended theorem at a concrete accepted request. -/
theorem predicted_aav_low_always_floored_witness :
    (0.5 : ℚ) ≤ (predict svcW 2025 reqBatW).predicted_aav_low :=
  predicted_aav_low_always_floored svcW 2025 reqBatW (predict svcW 2025 reqBatW) rfl

/-- Claim C1 counterexample: a concrete accepted batter request for which
the returned point estimate and high bound are below the 0.5 floor (the
source floors only predicted_aav_low; predicted_aav and predicted_aav_high
are whatever the artifacts produce). -/
theorem predict_point_estimate_below_floor :
    ∃ res, create_prediction svcBad 2025 reqBatW = .ok res ∧
      res.predicted_aav < 0.5 ∧ res.predicted_aav_high < 0.5 := by
  refine ⟨predict svcBad 2025 reqBatW, rfl, ?_, ?_⟩ <;>
    norm_num [predict, is_pitcher_C, reqBatW, predict_batter, svcBad,
      constModel, idScaler]

/-- Claim C3 (confirmed): the combined two-way aav is the exact sum of the
two role point estimates; the scale-to-dollars round trip of the primary
prediction cancels exactly and nothing is rounded before the summation. -/
theorem two_way_combined_exact_sum (svc : PredictionService) (year : Int)
    (batterReq : PredictionRequest) (pst : TwoWayPitchingStats) :
    two_way_combined_aav svc year batterReq pst =
      (predict svc year batterReq).predicted_aav +
        (predict svc year (two_way_pitcher_request batterReq.name pst)).predicted_aav := by
  simp only [two_way_combined_aav]
  rw [mul_div_assoc]
  norm_num

/-- Claim C7 (confirmed): on a loaded service, a pitcher request missing
both ERA and FIP, or a batter request missing both wRC+ and AVG, is
rejected with HTTP 400 before any prediction is attempted. -/
theorem missing_required_stat_rejected (svc : PredictionService) (year : Int)
    (req : PredictionRequest) (hl : svc.loaded = true) :
    (is_pitcher req.position = true → req.era_3yr = none → req.fip_3yr = none →
      create_prediction svc year req = .error 400) ∧
    (is_pitcher req.position = false → req.wrc_plus_3yr = none → req.avg_3yr = none →
      create_prediction svc year req = .error 400) := by
  constructor <;> intro hp h1 h2 <;> simp [create_prediction, hl, hp, h1, h2]

/-- Witness for C7 at one concrete pitcher and one concrete batter request. -/
theorem missing_required_stat_rejected_witness :
    create_prediction svcW 2025 reqPitMissing = .error 400 ∧
    create_prediction svcW 2025 reqBatMissing = .error 400 :=
  ⟨(missing_required_stat_rejected svcW 2025 reqPitMissing rfl).1 (by decide) rfl rfl,
   (missing_required_stat_rejected svcW 2025 reqBatMissing rfl).2 (by decide) rfl rfl⟩

/-- Claim C9 (confirmed): peak_efficiency is total in both assembly paths:
war over age for positive age, and the guarded value 0 for age at or below
zero, with no division error possible. -/
theorem peak_efficiency_total_definition (req : PredictionRequest) :
    (0 < req.age →
      assocFind (batterFeatureValues req) "peak_efficiency"
          = some (req.war_3yr / (req.age : ℚ)) ∧
      assocFind (pitcherFeatureValues req) "peak_efficiency"
          = some (req.war_3yr / (req.age : ℚ))) ∧
    (req.age ≤ 0 →
      assocFind (batterFeatureValues req) "peak_efficiency" = some 0 ∧
      assocFind (pitcherFeatureValues req) "peak_efficiency" = some 0) := by
  constructor
  · intro h
    constructor <;> simp [batterFeatureValues, pitcherFeatureValues, assocFind, if_pos h]
  · intro h
    have h' : ¬ (0 < req.age) := not_lt.mpr h
    constructor <;> simp [batterFeatureValues, pitcherFeatureValues, assocFind, if_neg h']

/-- Witness for C9 at a concrete request of age 30. -/
theorem peak_efficiency_total_definition_witness :
    assocFind (batterFeatureValues reqBatW) "peak_efficiency"
        = some (reqBatW.war_3yr / (reqBatW.age : ℚ)) ∧
    assocFind (pitcherFeatureValues reqBatW) "peak_efficiency"
        = some (reqBatW.war_3yr / (reqBatW.age : ℚ)) :=
  (peak_efficiency_total_definition reqBatW).1 (by decide)

/-- Claim C10 (confirmed): a missing, empty, or broad-type-exhausted
historical table yields a complete prediction whose comparables list is
empty; nothing fails. -/
theorem missing_table_empty_comparables (svc : PredictionService) (year : Int)
    (req : PredictionRequest)
    (h : svc.contracts_df = none ∨ svc.contracts_df = some [] ∨
      (∃ table, svc.contracts_df = some table ∧
        filteredContracts table (is_pitcher req.position) = [])) :
    (predict svc year req).comparables = [] := by
  have key : ∀ b, b = is_pitcher req.position → find_comparables svc req b year 5 = [] := by
    intro b hb
    unfold find_comparables
    rcases h with h | h | ⟨t, ht, hf⟩
    · rw [h]
    · rw [h]; simp
    · rw [ht]
      dsimp only
      by_cases hlen : t.length = 0
      · simp [hlen]
      · rw [if_neg hlen, hb, hf]
        simp
  cases hp : is_pitcher req.position
  · have hd : predict svc year req = predict_batter svc req year := by
      simp [predict, hp]
    rw [hd, predict_batter_comparables]
    exact key false hp.symm
  · have hd : predict svc year req = predict_pitcher svc req year := by
      simp [predict, hp]
    rw [hd, predict_pitcher_comparables]
    exact key true hp.symm

/-- Witness for C10 on the service without a table. -/
theorem missing_table_empty_comparables_witness :
    (predict svcNoTable 2025 reqBatW).comparables = [] :=
  missing_table_empty_comparables svcNoTable 2025 reqBatW (Or.inl rfl)

/-- A normalization denominator is always positive. -/
theorem maxOr1_pos (l : List ℚ) : 0 < maxOr1 l := by
  unfold maxOr1
  split
  · assumption
  · norm_num

/-- The maximum of an all-zero series is zero. -/
theorem listMax_all_zero {l : List ℚ} (h : ∀ x ∈ l, x = 0) : listMax l = 0 := by
  cases l with
  | nil => rfl
  | cons x xs =>
    have aux : ∀ (ys : List ℚ) (a : ℚ), (∀ y ∈ ys, y = 0) → a = 0 → ys.foldl max a = 0 := by
      intro ys
      induction ys with
      | nil => intro a _ ha; simpa using ha
      | cons y ys ih =>
        intro a hy ha
        simp only [List.foldl_cons]
        apply ih
        · intro z hz; exact hy z (List.mem_cons_of_mem _ hz)
        · rw [ha, hy y (List.mem_cons_self _ _)]; simp
    exact aux xs x (fun y hy => h y (List.mem_cons_of_mem _ hy)) (h x (List.mem_cons_self _ _))

/-- An all-zero series makes the denominator fall back to 1. -/
theorem maxOr1_all_zero {l : List ℚ} (h : ∀ x ∈ l, x = 0) : maxOr1 l = 1 := by
  unfold maxOr1
  rw [listMax_all_zero h]
  norm_num

/-- A similarity component with zero delta and unit denominator contributes
its full weight. -/
theorem term_full_weight (d M w : ℚ) (hd : d = 0) (hM : M = 1) : (1 - d / M) * w = w := by
  rw [hd, hM]
  norm_num

/-- Claim C8 (confirmed): in both ranking passes every normalization
denominator is positive (never a division by zero), and whenever every
candidate is identical to the query in a dimension - so the raw maximum
delta is zero - the denominator is replaced by 1 and that component
contributes its full weight (35, 15 or 10) to every candidate uniformly. -/
theorem degenerate_denominator_full_weight :
    (∀ (req : PredictionRequest) (df : List ContractRow) (year : Int) (r : ContractRow),
      r ∈ df →
      (0 < maxOr1 (warDiffs req df) ∧ 0 < maxOr1 (ageDiffs req df) ∧
        0 < maxOr1 (yearDiffs df year)) ∧
      ((∀ s ∈ df, s.WAR_3yr = req.war_3yr) →
        maxOr1 (warDiffs req df) = 1 ∧ warTerm req df r = 35) ∧
      ((∀ s ∈ df, s.age_at_signing = req.age) →
        maxOr1 (ageDiffs req df) = 1 ∧ ageTerm req df r = 15) ∧
      ((∀ s ∈ df, s.year_signed = year) →
        maxOr1 (yearDiffs df year) = 1 ∧ recTerm df year r = 10)) ∧
    (∀ (contracts : List DbContract) (target : ℚ) (current_age year : Int) (c : DbContract),
      c ∈ contracts →
      ((∀ s ∈ contracts, recentWar s = target) → recentWarTerm contracts target c = 35) ∧
      ((∀ s ∈ contracts, s.age_at_signing = current_age) →
        recentAgeTerm contracts current_age c = 15) ∧
      ((∀ s ∈ contracts, s.year_signed = year) → recentRecTerm contracts year c = 10)) := by
  constructor
  · intro req df year r hr
    refine ⟨⟨maxOr1_pos _, maxOr1_pos _, maxOr1_pos _⟩, ?_, ?_, ?_⟩
    · intro h
      have hM : maxOr1 (warDiffs req df) = 1 := by
        apply maxOr1_all_zero
        intro x hx
        obtain ⟨s, hs, rfl⟩ := List.mem_map.mp hx
        rw [h s hs]
        simp
      refine ⟨hM, ?_⟩
      unfold warTerm
      exact term_full_weight _ _ _ (by rw [h r hr]; simp) hM
    · intro h
      have hM : maxOr1 (ageDiffs req df) = 1 := by
        apply maxOr1_all_zero
        intro x hx
        obtain ⟨s, hs, rfl⟩ := List.mem_map.mp hx
        rw [h s hs]
        simp
      refine ⟨hM, ?_⟩
      unfold ageTerm
      exact term_full_weight _ _ _ (by rw [h r hr]; simp) hM
    · intro h
      have hM : maxOr1 (yearDiffs df year) = 1 := by
        apply maxOr1_all_zero
        intro x hx
        obtain ⟨s, hs, rfl⟩ := List.mem_map.mp hx
        rw [h s hs]
        simp
      refine ⟨hM, ?_⟩
      unfold recTerm
      exact term_full_weight _ _ _ (by rw [h r hr]; simp) hM
  · intro contracts target current_age year c hc
    refine ⟨?_, ?_, ?_⟩
    · intro h
      have hM : maxOr1 (contracts.map (fun s => |recentWar s - target|)) = 1 := by
        apply maxOr1_all_zero
        intro x hx
        obtain ⟨s, hs, rfl⟩ := List.mem_map.mp hx
        rw [h s hs]
        simp
      unfold recentWarTerm
      exact term_full_weight _ _ _ (by rw [h c hc]; simp) hM
    · intro h
      have hM : maxOr1
          (contracts.map (fun s => |(s.age_at_signing : ℚ) - (current_age : ℚ)|)) = 1 := by
        apply maxOr1_all_zero
        intro x hx
        obtain ⟨s, hs, rfl⟩ := List.mem_map.mp hx
        rw [h s hs]
        simp
      unfold recentAgeTerm
      exact term_full_weight _ _ _ (by rw [h c hc]; simp) hM
    · intro h
      have hM : maxOr1 (contracts.map (fun s => ((year - s.year_signed : ℤ) : ℚ))) = 1 := by
        apply maxOr1_all_zero
        intro x hx
        obtain ⟨s, hs, rfl⟩ := List.mem_map.mp hx
        rw [h s hs]
        simp
      unfold recentRecTerm
      exact term_full_weight _ _ _ (by rw [h c hc]; simp) hM

/-- Witness for C8: tableW has uniform WAR 2 and uniform age 30, matching
the query, so the WAR and age components award their full 35 and 15. -/
theorem degenerate_denominator_full_weight_witness :
    warTerm reqBatW tableW rowA = 35 ∧ ageTerm reqBatW tableW rowA = 15 :=
  ⟨((degenerate_denominator_full_weight.1 reqBatW tableW 2025 rowA (by decide)).2.1
      (by decide)).2,
   ((degenerate_denominator_full_weight.1 reqBatW tableW 2025 rowA (by decide)).2.2.1
      (by decide)).2⟩

/-- Inserting into a list permutes to consing. -/
theorem insDesc_perm {α : Type} (key : α → ℚ) (x : α) (l : List α) :
    List.Perm (insDesc key x l) (x :: l) := by
  induction l with
  | nil => exact List.Perm.refl _
  | cons y ys ih =>
    simp only [insDesc]
    split
    · exact (ih.cons y).trans (List.Perm.swap x y ys)
    · exact List.Perm.refl _

/-- The stable sort permutes its input. -/
theorem sortDesc_perm {α : Type} (key : α → ℚ) (l : List α) :
    List.Perm (sortDesc key l) l := by
  induction l with
  | nil => exact List.Perm.refl _
  | cons x xs ih =>
    simp only [sortDesc]
    exact (insDesc_perm key x (sortDesc key xs)).trans (ih.cons x)

/-- Inserting an element of smaller original index into a sorted run keeps
the run sorted for rankedBefore. -/
theorem insDesc_pairwise {ρ : Type} (x : ScoredRow ρ) (l : List (ScoredRow ρ))
    (hl : l.Pairwise rankedBefore) (hx : ∀ y ∈ l, x.idx < y.idx) :
    (insDesc (fun t => t.score) x l).Pairwise rankedBefore := by
  induction l with
  | nil => simp [insDesc]
  | cons y ys ih =>
    rw [List.pairwise_cons] at hl
    obtain ⟨hy, hys⟩ := hl
    simp only [insDesc]
    split
    case isTrue h =>
      rw [List.pairwise_cons]
      refine ⟨?_, ih hys (fun z hz => hx z (List.mem_cons_of_mem _ hz))⟩
      intro z hz
      rcases List.mem_cons.mp ((insDesc_perm _ x ys).mem_iff.mp hz) with rfl | hzys
      · exact Or.inl h
      · exact hy z hzys
    case isFalse h =>
      have hxy : y.score ≤ x.score := not_lt.mp h
      rw [List.pairwise_cons]
      refine ⟨?_, List.pairwise_cons.mpr ⟨hy, hys⟩⟩
      intro z hz
      rcases List.mem_cons.mp hz with rfl | hzys
      · rcases lt_or_eq_of_le hxy with hlt | heq
        · exact Or.inl hlt
        · exact Or.inr ⟨heq.symm, hx z (List.mem_cons_self _ _)⟩
      · rcases hy z hzys with hlt | ⟨heq, _⟩
        · exact Or.inl (lt_of_lt_of_le hlt hxy)
        · have hle : z.score ≤ x.score := by rw [← heq]; exact hxy
          rcases lt_or_eq_of_le hle with hlt | heq2
          · exact Or.inl hlt
          · exact Or.inr ⟨heq2.symm, hx z (List.mem_cons_of_mem _ hzys)⟩

/-- The stable sort of a run with strictly increasing original indexes is
sorted for rankedBefore: descending scores, table order on ties. -/
theorem sortDesc_pairwise {ρ : Type} (l : List (ScoredRow ρ))
    (h : l.Pairwise (fun a b => a.idx < b.idx)) :
    (sortDesc (fun t => t.score) l).Pairwise rankedBefore := by
  induction l with
  | nil => simp [sortDesc]
  | cons x xs ih =>
    rw [List.pairwise_cons] at h
    simp only [sortDesc]
    exact insDesc_pairwise x _ (ih h.2)
      (fun y hy => h.1 y ((sortDesc_perm _ xs).mem_iff.mp hy))

/-- Indexes produced by withIdx are at least the start index. -/
theorem withIdx_idx_ge {α : Type} :
    ∀ (l : List α) (n : Nat) (p : Nat × α), p ∈ withIdx l n → n ≤ p.1 := by
  intro l
  induction l with
  | nil => intro n p h; simp [withIdx] at h
  | cons x xs ih =>
    intro n p h
    rcases List.mem_cons.mp h with rfl | h'
    · exact le_refl n
    · exact le_trans (Nat.le_succ n) (ih (n + 1) p h')

/-- withIdx numbers rows with strictly increasing indexes. -/
theorem withIdx_pairwise {α : Type} :
    ∀ (l : List α) (n : Nat), (withIdx l n).Pairwise (fun a b => a.1 < b.1) := by
  intro l
  induction l with
  | nil => intro n; simp [withIdx]
  | cons x xs ih =>
    intro n
    simp only [withIdx]
    rw [List.pairwise_cons]
    exact ⟨fun p hp => lt_of_lt_of_le (Nat.lt_succ_self n) (withIdx_idx_ge xs (n + 1) p hp),
      ih (n + 1)⟩

/-- Rows listed by withIdx are rows of the input. -/
theorem withIdx_mem {α : Type} :
    ∀ (l : List α) (n : Nat) (p : Nat × α), p ∈ withIdx l n → p.2 ∈ l := by
  intro l
  induction l with
  | nil => intro n p h; simp [withIdx] at h
  | cons x xs ih =>
    intro n p h
    rcases List.mem_cons.mp h with rfl | h'
    · exact List.mem_cons_self _ _
    · exact List.mem_cons_of_mem _ (ih (n + 1) p h')

/-- Scored rows carry strictly increasing original indexes. -/
theorem scoreRows_pairwise {ρ : Type} (sim : ρ → ℚ) (df : List ρ) :
    (scoreRows sim df).Pairwise (fun a b => a.idx < b.idx) := by
  unfold scoreRows
  exact (withIdx_pairwise df 0).map _ (fun a b hab => hab)

/-- A scored row's payload is a row of the table with its computed score. -/
theorem scoreRows_mem {ρ : Type} (sim : ρ → ℚ) (df : List ρ) (t : ScoredRow ρ)
    (ht : t ∈ scoreRows sim df) : t.row ∈ df ∧ t.score = sim t.row := by
  unfold scoreRows at ht
  obtain ⟨p, hp, rfl⟩ := List.mem_map.mp ht
  exact ⟨withIdx_mem df 0 p hp, rfl⟩

/-- The top slice of the first ranking pass is rankedBefore-sorted. -/
theorem topComparables_pairwise (req : PredictionRequest) (df : List ContractRow)
    (year : Int) (n : Nat) : (topComparables req df year n).Pairwise rankedBefore :=
  ((sortDesc_pairwise _ (scoreRows_pairwise _ df)).sublist (List.take_sublist n _))

/-- The top slice of the recent-performance pass is rankedBefore-sorted. -/
theorem topRecent_pairwise (db : List DbContract) (target : ℚ) (position : String)
    (current_age year : Int) (n : Nat) :
    (topRecent db target position current_age year n).Pairwise rankedBefore :=
  ((sortDesc_pairwise _ (scoreRows_pairwise _ _)).sublist (List.take_sublist n _))

/-- Rows of the top slice come from the filtered table. -/
theorem topComparables_mem (req : PredictionRequest) (df : List ContractRow)
    (year : Int) (n : Nat) (t : ScoredRow ContractRow)
    (ht : t ∈ topComparables req df year n) : t.row ∈ df := by
  unfold topComparables at ht
  have h1 := (List.take_sublist n _).mem ht
  have h2 := (sortDesc_perm _ _).mem_iff.mp h1
  exact (scoreRows_mem _ _ _ h2).1

/-- Rows of the recent top slice come from the query result. -/
theorem topRecent_mem (db : List DbContract) (target : ℚ) (position : String)
    (current_age year : Int) (n : Nat) (t : ScoredRow DbContract)
    (ht : t ∈ topRecent db target position current_age year n) :
    t.row ∈ recentQueryRows db position := by
  unfold topRecent at ht
  have h1 := (List.take_sublist n _).mem ht
  have h2 := (sortDesc_perm _ _).mem_iff.mp h1
  exact (scoreRows_mem _ _ _ h2).1

/-- Membership in the broad-type filter fixes the pitcher-set test. -/
theorem filteredContracts_mem (table : List ContractRow) (isP : Bool) (r : ContractRow)
    (hr : r ∈ filteredContracts table isP) : posInPitcherSet r.position = isP := by
  unfold filteredContracts at hr
  cases isP
  · simp only [Bool.false_eq_true, if_false] at hr
    have := (List.mem_filter.mp hr).2
    simpa using this
  · simp only [if_true] at hr
    exact (List.mem_filter.mp hr).2

/-- Membership in the recent query fixes the pitcher-set test to the
request's broad type. -/
theorem recentQueryRows_mem (db : List DbContract) (position : String) (c : DbContract)
    (hc : c ∈ recentQueryRows db position) :
    posInPitcherSet c.position = is_pitcher position := by
  unfold recentQueryRows at hc
  cases hp : is_pitcher position
  · rw [hp] at hc
    simp only [Bool.false_eq_true, if_false] at hc
    have := (List.mem_filter.mp hc).2
    simpa using this
  · rw [hp] at hc
    simp only [if_true] at hc
    exact (List.mem_filter.mp hc).2

/-- The top slice of the first pass holds at most n rows. -/
theorem topComparables_length (req : PredictionRequest) (df : List ContractRow)
    (year : Int) (n : Nat) : (topComparables req df year n).length ≤ n := by
  unfold topComparables
  exact List.length_take_le n _

/-- The top slice of the recent pass holds at most n rows. -/
theorem topRecent_length (db : List DbContract) (target : ℚ) (position : String)
    (current_age year : Int) (n : Nat) :
    (topRecent db target position current_age year n).length ≤ n := by
  unfold topRecent
  exact List.length_take_le n _

/-- Claim C4 (confirmed): both ranking passes return at most n records,
every returned record sits on the same side of the pitcher/hitter split as
the request, and the ranked slice is ordered by strictly descending score
with original table order on ties (the stable descending sort). -/
theorem ranker_topn_type_stable :
    (∀ (svc : PredictionService) (req : PredictionRequest) (year : Int) (n : Nat),
      (find_comparables svc req (is_pitcher req.position) year n).length ≤ n ∧
      (∀ c ∈ find_comparables svc req (is_pitcher req.position) year n,
        posInPitcherSet c.position = is_pitcher req.position) ∧
      (∀ df, (topComparables req df year n).Pairwise rankedBefore)) ∧
    (∀ (db : List DbContract) (target : ℚ) (position : String)
      (current_age year : Int) (n : Nat),
      (find_comparables_by_recent_performance db target position current_age year n).length
          ≤ n ∧
      (∀ c ∈ find_comparables_by_recent_performance db target position current_age year n,
        posInPitcherSet c.position = is_pitcher position) ∧
      (topRecent db target position current_age year n).Pairwise rankedBefore) := by
  constructor
  · intro svc req year n
    refine ⟨?_, ?_, fun df => topComparables_pairwise req df year n⟩
    · unfold find_comparables
      cases hdf : svc.contracts_df with
      | none => simp
      | some table =>
        dsimp only
        by_cases h0 : table.length = 0
        · simp [h0]
        · rw [if_neg h0]
          by_cases h1 : (filteredContracts table (is_pitcher req.position)).length = 0
          · rw [if_pos h1]; simp
          · rw [if_neg h1, List.length_map]
            exact topComparables_length req _ year n
    · intro c hc
      unfold find_comparables at hc
      rcases hdf : svc.contracts_df with _ | table
      · rw [hdf] at hc; simp at hc
      · rw [hdf] at hc
        dsimp only at hc
        by_cases h0 : table.length = 0
        · rw [if_pos h0] at hc; simp at hc
        · rw [if_neg h0] at hc
          by_cases h1 : (filteredContracts table (is_pitcher req.position)).length = 0
          · rw [if_pos h1] at hc; simp at hc
          · rw [if_neg h1] at hc
            obtain ⟨t, ht, rfl⟩ := List.mem_map.mp hc
            exact filteredContracts_mem table _ t.row (topComparables_mem req _ year n t ht)
  · intro db target position current_age year n
    refine ⟨?_, ?_, topRecent_pairwise db target position current_age year n⟩
    · unfold find_comparables_by_recent_performance
      by_cases h0 : (recentQueryRows db position).isEmpty
      · simp [h0]
      · rw [if_neg h0, List.length_map]
        exact topRecent_length db target position current_age year n
    · intro c hc
      unfold find_comparables_by_recent_performance at hc
      by_cases h0 : (recentQueryRows db position).isEmpty
      · rw [if_pos h0] at hc; simp at hc
      · rw [if_neg h0] at hc
        obtain ⟨t, ht, rfl⟩ := List.mem_map.mp hc
        exact recentQueryRows_mem db position t.row
          (topRecent_mem db target position current_age year n t ht)

/-- Witness for C4: on a one-row table the single returned record is on
the batter side of the split, like the request. -/
theorem ranker_topn_type_stable_witness :
    posInPitcherSet rowA.position = is_pitcher reqBatW.position :=
  (ranker_topn_type_stable.1 svcOneRow reqBatW 2025 5).2.1
    (mkComparable ⟨0, rowA,
      comparableSimilarity reqBatW
        (filteredContracts [rowA] (is_pitcher reqBatW.position)) 2025 rowA⟩)
    (List.mem_singleton.mpr rfl)

/-- A similarity component with nonnegative delta and positive denominator
never exceeds its weight. -/
theorem term_le_weight (d M w : ℚ) (hd : 0 ≤ d) (hM : 0 < M) (hw : 0 ≤ w) :
    (1 - d / M) * w ≤ w := by
  have h1 : 0 ≤ d / M := div_nonneg hd hM.le
  nlinarith

/-- The recency component is antitone in the years-ago delta. -/
theorem rec_mono (a b M w : ℚ) (hab : b ≤ a) (hM : 0 < M) (hw : 0 ≤ w) :
    (1 - a / M) * w ≤ (1 - b / M) * w := by
  have h1 : b / M ≤ a / M := (div_le_div_iff_of_pos_right hM).mpr hab
  nlinarith

/-- Claim C6 (amended): a filtered row identical to the query in position
group, 3-year performance and age scores at least every other candidate,
provided it is also among the most recently signed rows of the filtered
set; its three profile components are at their caps and recency is antitone
in years-ago. -/
theorem self_profile_max_similarity (req : PredictionRequest)
    (df : List ContractRow) (year : Int) (self r : ContractRow)
    (hself : self ∈ df) (hr : r ∈ df)
    (hpos : rowPosGroup self.position = get_position_group req.position)
    (hwar : self.WAR_3yr = req.war_3yr)
    (hage : self.age_at_signing = req.age)
    (hrecent : ∀ s ∈ df, s.year_signed ≤ self.year_signed) :
    comparableSimilarity req df year r ≤ comparableSimilarity req df year self := by
  have hMw := maxOr1_pos (warDiffs req df)
  have hMa := maxOr1_pos (ageDiffs req df)
  have hMy := maxOr1_pos (yearDiffs df year)
  have h1 : posTerm req r ≤ 40 := by
    unfold posTerm; split <;> norm_num
  have h2 : warTerm req df r ≤ 35 :=
    term_le_weight _ _ _ (abs_nonneg _) hMw (by norm_num)
  have h3 : ageTerm req df r ≤ 15 :=
    term_le_weight _ _ _ (abs_nonneg _) hMa (by norm_num)
  have h4 : recTerm df year r ≤ recTerm df year self := by
    unfold recTerm
    exact rec_mono _ _ _ _ (Int.cast_le.mpr (by have := hrecent r hr; omega)) hMy
      (by norm_num)
  have h5 : posTerm req self = 40 := by
    unfold posTerm; rw [if_pos hpos]
  have h6 : warTerm req df self = 35 := by
    unfold warTerm; rw [hwar]; simp
  have h7 : ageTerm req df self = 15 := by
    unfold ageTerm; rw [hage]; simp
  unfold comparableSimilarity
  linarith

/-- Witness for C6's amended theorem: in tableW the row rowB matches the
query profile and is the most recent, and indeed tops rowA. -/
theorem self_profile_max_similarity_witness :
    comparableSimilarity reqBatW tableW 2025 rowA ≤
      comparableSimilarity reqBatW tableW 2025 rowB :=
  self_profile_max_similarity reqBatW tableW 2025 rowB rowA (by decide) (by decide)
    (by decide) (by decide) (by decide) (by decide)

/-- Claim C6 counterexample: rowA is identical to the query in position
group, performance and age, yet rowB (same profile, more recent signing)
scores strictly higher, so the identical row's score is not the maximum. -/
theorem self_profile_not_max_similarity :
    rowA ∈ tableW ∧
    rowPosGroup rowA.position = get_position_group reqBatW.position ∧
    rowA.WAR_3yr = reqBatW.war_3yr ∧
    rowA.age_at_signing = reqBatW.age ∧
    comparableSimilarity reqBatW tableW 2025 rowA <
      comparableSimilarity reqBatW tableW 2025 rowB := by
  refine ⟨by decide, by decide, by decide, by decide, ?_⟩
  have hgr : rowPosGroup "C" = get_position_group "C" := by decide
  have eA : comparableSimilarity reqBatW tableW 2025 rowA = 90 := by
    norm_num [comparableSimilarity, posTerm, warTerm, ageTerm, recTerm, hgr,
      maxOr1, listMax, warDiffs, ageDiffs, yearDiffs, tableW, rowA, rowB, reqBatW]
  have eB : comparableSimilarity reqBatW tableW 2025 rowB = 100 := by
    norm_num [comparableSimilarity, posTerm, warTerm, ageTerm, recTerm, hgr,
      maxOr1, listMax, warDiffs, ageDiffs, yearDiffs, tableW, rowA, rowB, reqBatW]
  rw [eA, eB]
  norm_num

/-- Python substring containment agrees with the contiguous-infix order. -/
theorem containsSub_spec (needle : List Char) :
    ∀ hay, containsSub needle hay = true ↔ needle <:+: hay := by
  intro hay
  induction hay with
  | nil =>
    simp [containsSub, List.isEmpty_iff]
  | cons c t ih =>
    simp [containsSub, Bool.or_eq_true, List.isPrefixOf_iff_prefix, ih,
      List.infix_cons_iff]

/-- The distinct values of a nonempty constant column form one singleton. -/
theorem distinctVals_all_eq (v : List Char) :
    ∀ (l : List (List Char)), l ≠ [] → (∀ x ∈ l, x = v) → distinctVals l = [v] := by
  intro l
  induction l with
  | nil => intro h _; exact absurd rfl h
  | cons x xs ih =>
    intro _ hall
    have hx : x = v := hall x (List.mem_cons_self _ _)
    by_cases hxs : xs = []
    · subst hxs
      simp [distinctVals, hx]
    · have hrec := ih hxs (fun y hy => hall y (List.mem_cons_of_mem _ hy))
      simp [distinctVals, hrec, hx]

/-- Claim C2 (amended): against a year-filtered table whose only
judge-containing normalized name is aaron judge (present at least once),
the raw name J. Judge is resolved by strategy 3 - unique surname as a
whole token - returning exactly the Aaron Judge rows with the tag
unique_last_name.  Strategy 2 cannot fire because aaron judge does not
start with the query initial j. -/
theorem judge_scenario_resolved_by_unique_surname
    (stats : List StatRow) (years : List Int)
    (hjudge : ∀ r ∈ stats.filter (fun r => decide (r.Season ∈ years)),
      containsSub "judge".toList (normOf r) = true → normOf r = "aaron judge".toList)
    (hex : ∃ r ∈ stats.filter (fun r => decide (r.Season ∈ years)),
      normOf r = "aaron judge".toList) :
    (find_player_match "J. Judge".toList stats years).2 = "unique_last_name" ∧
    ∃ rows, (find_player_match "J. Judge".toList stats years).1 = some rows ∧
      rows ≠ [] ∧ ∀ r ∈ rows, normOf r = "aaron judge".toList := by
  have htarget : normalize_name ("J. Judge".toList) = "j judge".toList := by decide
  have hparts : get_name_parts ("J. Judge".toList) =
      (['j'], ['j', 'u', 'd', 'g', 'e']) := by decide
  obtain ⟨r₀, hr₀mem, hr₀⟩ := hex
  have hyfne : (stats.filter (fun r => decide (r.Season ∈ years))).isEmpty = false := by
    have := List.ne_nil_of_mem hr₀mem
    simpa [List.isEmpty_iff] using this
  have hexact : (stats.filter (fun r => decide (r.Season ∈ years))).filter
      (fun r => decide (normOf r = "j judge".toList)) = [] := by
    rw [List.filter_eq_nil_iff]
    intro r hr hb
    rw [decide_eq_true_eq] at hb
    have hc : containsSub "judge".toList (normOf r) = true := by
      rw [hb]; decide
    have haar := hjudge r hr hc
    rw [hb] at haar
    exact absurd haar (by decide)
  have hs2 : (stats.filter (fun r => decide (r.Season ∈ years))).filter
      (fun r => containsSub ['j', 'u', 'd', 'g', 'e'] (normOf r) &&
        List.isPrefixOf ['j'] (normOf r)) = [] := by
    rw [List.filter_eq_nil_iff]
    intro r hr hb
    rw [Bool.and_eq_true] at hb
    have haar := hjudge r hr hb.1
    rw [haar] at hb
    exact absurd hb.2 (by decide)
  have hs3 : (stats.filter (fun r => decide (r.Season ∈ years))).filter
      (fun r => endsWithList (normOf r) (' ' :: ['j', 'u', 'd', 'g', 'e']) ||
        List.isPrefixOf (['j', 'u', 'd', 'g', 'e'] ++ [' ']) (normOf r)) =
      (stats.filter (fun r => decide (r.Season ∈ years))).filter
        (fun r => decide (normOf r = "aaron judge".toList)) := by
    apply List.filter_congr
    intro r hr
    cases hcase : (endsWithList (normOf r) (' ' :: ['j', 'u', 'd', 'g', 'e']) ||
        List.isPrefixOf (['j', 'u', 'd', 'g', 'e'] ++ [' ']) (normOf r)) with
    | false =>
      by_cases heq : normOf r = "aaron judge".toList
      · rw [heq] at hcase
        exact absurd hcase (by decide)
      · exact (decide_eq_false heq).symm
    | true =>
      rw [Bool.or_eq_true] at hcase
      have hc : containsSub "judge".toList (normOf r) = true := by
        rw [containsSub_spec]
        rcases hcase with hend | hpre
        · have hsuf := (List.isSuffixOf_iff_suffix).mp hend
          exact ((List.suffix_cons ' ' _).isInfix).trans hsuf.isInfix
        · have hp := (List.isPrefixOf_iff_prefix).mp hpre
          exact ((List.prefix_append _ [' ']).isInfix).trans hp.isInfix
      have haar := hjudge r hr hc
      simp [haar]
  have hr₀lm : r₀ ∈ (stats.filter (fun r => decide (r.Season ∈ years))).filter
      (fun r => decide (normOf r = "aaron judge".toList)) :=
    List.mem_filter.mpr ⟨hr₀mem, by simp [hr₀]⟩
  have hlmall : ∀ r ∈ (stats.filter (fun r => decide (r.Season ∈ years))).filter
      (fun r => decide (normOf r = "aaron judge".toList)),
      normOf r = "aaron judge".toList := by
    intro r hr
    have := (List.mem_filter.mp hr).2
    simpa using this
  have hlmne : (stats.filter (fun r => decide (r.Season ∈ years))).filter
      (fun r => decide (normOf r = "aaron judge".toList)) ≠ [] :=
    List.ne_nil_of_mem hr₀lm
  have hlmpos : ((stats.filter (fun r => decide (r.Season ∈ years))).filter
      (fun r => decide (normOf r = "aaron judge".toList))).length > 0 :=
    List.length_pos.mpr hlmne
  have hdv : (distinctVals (((stats.filter (fun r => decide (r.Season ∈ years))).filter
      (fun r => decide (normOf r = "aaron judge".toList))).map normOf)).length = 1 := by
    rw [distinctVals_all_eq "aaron judge".toList _
      (by simpa [List.map_eq_nil_iff] using hlmne)
      (by intro x hx
          obtain ⟨r, hr, rfl⟩ := List.mem_map.mp hx
          exact hlmall r hr)]
    rfl
  have hmain : find_player_match "J. Judge".toList stats years =
      (some ((stats.filter (fun r => decide (r.Season ∈ years))).filter
        (fun r => decide (normOf r = "aaron judge".toList))), "unique_last_name") := by
    simp only [find_player_match, htarget, hparts]
    rw [hyfne]
    simp only [Bool.false_eq_true, if_false]
    rw [hexact]
    simp only [List.length_nil, gt_iff_lt, lt_self_iff_false, if_false]
    rw [hs2]
    have hs2cond : ¬(([] : List StatRow).length = 1 ∨
        ([] : List StatRow).length > 0 ∧
          (distinctVals (([] : List StatRow).map normOf)).length = 1) := by
      simp
    rw [if_neg hs2cond]
    dsimp only
    rw [if_pos (show (['j', 'u', 'd', 'g', 'e'] : List Char) ≠ [] by decide)]
    rw [hs3]
    rw [if_pos hlmpos, if_pos hdv]
  rw [hmain]
  exact ⟨rfl, _, rfl, hlmne, hlmall⟩

/-- Witness for C2's amended theorem on the concrete one-row Judge table. -/
theorem judge_scenario_resolved_by_unique_surname_witness :
    (find_player_match "J. Judge".toList judgeTable judgeYears).2 = "unique_last_name" :=
  (judge_scenario_resolved_by_unique_surname judgeTable judgeYears (by decide) (by decide)).1

/-- Claim C2 counterexample: on the exact scenario table the resolver does
not tag the match last_name_first_initial (strategy 2 requires the
candidate's normalized key to start with the query initial j, but aaron
judge starts with a); it returns the row via strategy 3 with tag
unique_last_name. -/
theorem judge_scenario_claimed_tag_wrong :
    (find_player_match "J. Judge".toList judgeTable judgeYears).2
        ≠ "last_name_first_initial" ∧
    (find_player_match "J. Judge".toList judgeTable judgeYears).2 = "unique_last_name" ∧
    (find_player_match "J. Judge".toList judgeTable judgeYears).1 = some judgeTable := by
  refine ⟨by decide, by decide, by decide⟩

/-- An association-table hit is a table entry. -/
theorem assocFind_mem {β : Type} (l : List (Char × β)) (c : Char) (v : β)
    (h : assocFind l c = some v) : (c, v) ∈ l := by
  induction l with
  | nil => simp [assocFind] at h
  | cons p t ih =>
    rcases p with ⟨k, w⟩
    simp only [assocFind] at h
    split at h
    · cases h
      subst_vars
      exact List.mem_cons_self _ _
    · exact List.mem_cons_of_mem _ (ih h)

/-- Non-mark characters of the decompositions are never table keys. -/
theorem nfdTable_out : ∀ p ∈ nfdTable, ∀ d ∈ p.2, isMn d = false →
    assocFind nfdTable d = none := by decide

/-- A non-mark character produced by decomposition decomposes to itself. -/
theorem nfd_stable (a c : Char) (hc : c ∈ nfdChar a) (hm : isMn c = false) :
    nfdChar c = [c] := by
  unfold nfdChar at hc ⊢
  cases hfind : assocFind nfdTable a with
  | none =>
    rw [hfind] at hc
    simp at hc
    subst hc
    rw [hfind]
    rfl
  | some ds =>
    rw [hfind] at hc
    simp at hc
    rw [nfdTable_out (a, ds) (assocFind_mem _ _ _ hfind) c hc hm]
    rfl

/-- Lower-table outputs are inert at every stage of the pipeline. -/
theorem lowerTable_out : ∀ p ∈ asciiLowerTable,
    nfdChar p.2 = [p.2] ∧ isMn p.2 = false ∧ pyLowerChar p.2 = p.2 ∧
      keepChar p.2 = true ∧ isPySpace p.2 = false := by decide

/-- Lowering keeps a non-whitespace character non-whitespace. -/
theorem pyLowerChar_nonspace (c : Char) (h : isPySpace c = false) :
    isPySpace (pyLowerChar c) = false := by
  unfold pyLowerChar
  cases hfind : assocFind asciiLowerTable c with
  | none => simpa using h
  | some v =>
    have hv := lowerTable_out (c, v) (assocFind_mem _ _ _ hfind)
    simpa using hv.2.2.2.2

/-- A map by a pointwise identity is the identity. -/
theorem map_self_of {α : Type} (f : α → α) :
    ∀ l : List α, (∀ c ∈ l, f c = c) → l.map f = l := by
  intro l
  induction l with
  | nil => intro _; rfl
  | cons x xs ih =>
    intro h
    simp only [List.map_cons, h x (List.mem_cons_self _ _),
      ih (fun c hc => h c (List.mem_cons_of_mem _ hc))]

/-- A flatMap by a pointwise singleton is the identity. -/
theorem flatMap_self_of (f : Char → List Char) :
    ∀ l : List Char, (∀ c ∈ l, f c = [c]) → l.flatMap f = l := by
  intro l
  induction l with
  | nil => intro _; rfl
  | cons x xs ih =>
    intro h
    simp only [List.flatMap_cons, h x (List.mem_cons_self _ _),
      ih (fun c hc => h c (List.mem_cons_of_mem _ hc))]
    rfl

/-- The strip step only removes characters. -/
theorem mem_of_pyStrip (c : Char) (l : List Char) (h : c ∈ pyStrip l) : c ∈ l := by
  unfold pyStrip at h
  rw [List.mem_reverse] at h
  have h1 := List.Sublist.mem h (List.dropWhile_sublist _)
  rw [List.mem_reverse] at h1
  exact List.Sublist.mem h1 (List.dropWhile_sublist _)

/-- Characters of a joined word list are spaces or word characters. -/
theorem mem_joinSpace_elim (c : Char) :
    ∀ ws, c ∈ joinSpace ws → c = ' ' ∨ ∃ w ∈ ws, c ∈ w := by
  intro ws
  induction ws with
  | nil => intro h; simp [joinSpace] at h
  | cons w ws ih =>
    cases ws with
    | nil =>
      intro h
      exact Or.inr ⟨w, List.mem_cons_self _ _, by simpa [joinSpace] using h⟩
    | cons w' ws' =>
      intro h
      simp only [joinSpace] at h
      rcases List.mem_append.mp h with hw | hrest
      · exact Or.inr ⟨w, List.mem_cons_self _ _, hw⟩
      · rcases List.mem_cons.mp hrest with rfl | h'
        · exact Or.inl rfl
        · rcases ih h' with h'' | ⟨w'', hw'', hcw⟩
          · exact Or.inl h''
          · exact Or.inr ⟨w'', List.mem_cons_of_mem _ hw'', hcw⟩

/-- A character of a listed word is a character of the join. -/
theorem mem_joinSpace_intro (c : Char) :
    ∀ ws (w : List Char), w ∈ ws → c ∈ w → c ∈ joinSpace ws := by
  intro ws
  induction ws with
  | nil => intro w hw; simp at hw
  | cons u us ih =>
    intro w hw hc
    cases us with
    | nil =>
      rcases List.mem_cons.mp hw with rfl | h'
      · simpa [joinSpace] using hc
      · simp at h'
    | cons u' us' =>
      simp only [joinSpace]
      rcases List.mem_cons.mp hw with rfl | h'
      · exact List.mem_append.mpr (Or.inl hc)
      · exact List.mem_append.mpr (Or.inr (List.mem_cons_of_mem _ (ih w h' hc)))

/-- Words produced by the splitter are nonempty, whitespace free, and made
of input (or accumulator) characters. -/
theorem splitWsAux_words :
    ∀ (l acc : List Char), (∀ c ∈ acc, isPySpace c = false) →
      ∀ w ∈ splitWsAux l acc, w ≠ [] ∧ ∀ c ∈ w, isPySpace c = false ∧ (c ∈ acc ∨ c ∈ l) := by
  intro l
  induction l with
  | nil =>
    intro acc hacc w hw
    by_cases hacc0 : acc.isEmpty
    · rw [splitWsAux, if_pos hacc0] at hw
      simp at hw
    · rw [splitWsAux, if_neg hacc0] at hw
      rw [List.mem_singleton] at hw
      subst hw
      refine ⟨?_, ?_⟩
      · simp only [ne_eq, List.reverse_eq_nil_iff]
        intro hc
        rw [hc] at hacc0
        exact hacc0 rfl
      · intro c hc
        have hcacc : c ∈ acc := List.mem_reverse.mp hc
        exact ⟨hacc c hcacc, Or.inl hcacc⟩
  | cons a l ih =>
    intro acc hacc w hw
    by_cases ha : isPySpace a
    · rw [splitWsAux, if_pos ha] at hw
      by_cases hacc0 : acc.isEmpty
      · rw [if_pos hacc0] at hw
        have hres := ih [] (by simp) w hw
        exact ⟨hres.1, fun c hc => ⟨(hres.2 c hc).1,
          Or.inr (List.mem_cons_of_mem _ (((hres.2 c hc).2).resolve_left (by simp)))⟩⟩
      · rw [if_neg hacc0] at hw
        rcases List.mem_cons.mp hw with rfl | hw'
        · refine ⟨?_, ?_⟩
          · simp only [ne_eq, List.reverse_eq_nil_iff]
            intro hc
            rw [hc] at hacc0
            exact hacc0 rfl
          · intro c hc
            have hcacc : c ∈ acc := List.mem_reverse.mp hc
            exact ⟨hacc c hcacc, Or.inl hcacc⟩
        · have hres := ih [] (by simp) w hw'
          exact ⟨hres.1, fun c hc => ⟨(hres.2 c hc).1,
            Or.inr (List.mem_cons_of_mem _ (((hres.2 c hc).2).resolve_left (by simp)))⟩⟩
    · rw [splitWsAux, if_neg ha] at hw
      have hres := ih (a :: acc) (by
        intro c hc
        rcases List.mem_cons.mp hc with rfl | h'
        · simpa using ha
        · exact hacc c h') w hw
      refine ⟨hres.1, fun c hc => ⟨(hres.2 c hc).1, ?_⟩⟩
      rcases (hres.2 c hc).2 with hmem | hmem
      · rcases List.mem_cons.mp hmem with rfl | h'
        · exact Or.inr (List.mem_cons_self _ _)
        · exact Or.inl h'
      · exact Or.inr (List.mem_cons_of_mem _ hmem)

/-- The splitter on an all-word run yields that run (with the pending
accumulator prepended). -/
theorem splitWsAux_all_nonspace :
    ∀ (w acc : List Char), (∀ c ∈ w, isPySpace c = false) →
      splitWsAux w acc =
        if (acc.reverse ++ w).isEmpty then [] else [acc.reverse ++ w] := by
  intro w
  induction w with
  | nil => intro acc _; simp [splitWsAux]
  | cons c w' ih =>
    intro acc h
    have hc : isPySpace c = false := h c (List.mem_cons_self _ _)
    rw [splitWsAux, if_neg (by simp [hc])]
    rw [ih (c :: acc) (fun d hd => h d (List.mem_cons_of_mem _ hd))]
    simp [List.reverse_cons, List.append_assoc]

/-- The splitter consumes one full word up to the next space. -/
theorem splitWsAux_word_break (rest : List Char) :
    ∀ (w acc : List Char), (∀ c ∈ w, isPySpace c = false) →
      (acc.reverse ++ w) ≠ [] →
      splitWsAux (w ++ ' ' :: rest) acc = (acc.reverse ++ w) :: splitWsAux rest [] := by
  intro w
  induction w with
  | nil =>
    intro acc _ hne
    have hacc : acc.isEmpty = false := by
      cases acc with
      | nil => simp at hne
      | cons x xs => rfl
    have hsp : isPySpace ' ' = true := by decide
    rw [List.nil_append, splitWsAux, if_pos hsp, if_neg (by simp [hacc])]
    simp
  | cons c w' ih =>
    intro acc h hne
    have hc : isPySpace c = false := h c (List.mem_cons_self _ _)
    rw [List.cons_append, splitWsAux, if_neg (by simp [hc])]
    rw [ih (c :: acc) (fun d hd => h d (List.mem_cons_of_mem _ hd))
      (by simp [List.reverse_cons, List.append_assoc])]
    simp [List.reverse_cons, List.append_assoc]

/-- Splitting a space-join of nonempty whitespace-free words returns the
words. -/
theorem splitWs_join :
    ∀ ws, (∀ w ∈ ws, w ≠ [] ∧ ∀ c ∈ w, isPySpace c = false) →
      splitWs (joinSpace ws) = ws := by
  intro ws
  induction ws with
  | nil => intro _; rfl
  | cons w ws' ih =>
    intro h
    obtain ⟨hwne, hwns⟩ := h w (List.mem_cons_self _ _)
    cases ws' with
    | nil =>
      show splitWs w = [w]
      unfold splitWs
      rw [splitWsAux_all_nonspace w [] hwns]
      simp [List.isEmpty_iff, hwne]
    | cons w' ws'' =>
      have hih := ih (fun u hu => h u (List.mem_cons_of_mem _ hu))
      show splitWs (w ++ ' ' :: joinSpace (w' :: ws'')) = w :: w' :: ws''
      unfold splitWs
      rw [splitWsAux_word_break _ w [] hwns (by simpa using hwne)]
      simpa using hih

/-- The join of a word list opening with a character opens with it. -/
theorem joinSpace_head (c₀ : Char) (w₀ : List Char) (ws : List (List Char)) :
    ∃ t, joinSpace ((c₀ :: w₀) :: ws) = c₀ :: t := by
  cases ws with
  | nil => exact ⟨w₀, rfl⟩
  | cons w' ws' => exact ⟨w₀ ++ ' ' :: joinSpace (w' :: ws'), rfl⟩

/-- The reversed join of nice words opens with a non-whitespace character. -/
theorem joinSpace_rev_head :
    ∀ ws, (∀ w ∈ ws, w ≠ [] ∧ ∀ c ∈ w, isPySpace c = false) → ws ≠ [] →
      ∃ c t, (joinSpace ws).reverse = c :: t ∧ isPySpace c = false := by
  intro ws
  induction ws with
  | nil => intro _ h; exact absurd rfl h
  | cons w ws' ih =>
    intro hnice _
    obtain ⟨hne, hns⟩ := hnice w (List.mem_cons_self _ _)
    cases ws' with
    | nil =>
      obtain ⟨c, t, hct⟩ : ∃ c t, w.reverse = c :: t := by
        cases hw : w.reverse with
        | nil => rw [List.reverse_eq_nil_iff] at hw; exact absurd hw hne
        | cons c t => exact ⟨c, t, rfl⟩
      refine ⟨c, t, by simpa [joinSpace] using hct, ?_⟩
      exact hns c (by rw [← List.mem_reverse, hct]; exact List.mem_cons_self _ _)
    | cons w' ws'' =>
      obtain ⟨c, t, hct, hcns⟩ :=
        ih (fun u hu => hnice u (List.mem_cons_of_mem _ hu)) (by simp)
      refine ⟨c, t ++ ' ' :: w.reverse, ?_, hcns⟩
      show (w ++ ' ' :: joinSpace (w' :: ws'')).reverse = c :: (t ++ ' ' :: w.reverse)
      rw [List.reverse_append, List.reverse_cons, hct]
      simp [List.append_assoc]

/-- The join of nice words is already stripped. -/
theorem pyStrip_join (ws : List (List Char))
    (hnice : ∀ w ∈ ws, w ≠ [] ∧ ∀ c ∈ w, isPySpace c = false) :
    pyStrip (joinSpace ws) = joinSpace ws := by
  cases ws with
  | nil => rfl
  | cons w ws' =>
    obtain ⟨hne, hns⟩ := hnice w (List.mem_cons_self _ _)
    obtain ⟨c₀, w₀, rfl⟩ : ∃ c₀ w₀, w = c₀ :: w₀ := by
      cases w with
      | nil => exact absurd rfl hne
      | cons c₀ w₀ => exact ⟨c₀, w₀, rfl⟩
    obtain ⟨t, hjoin⟩ := joinSpace_head c₀ w₀ ws'
    have hc₀ : isPySpace c₀ = false := hns c₀ (List.mem_cons_self _ _)
    obtain ⟨c, tr, hrev, hcns⟩ := joinSpace_rev_head ((c₀ :: w₀) :: ws') hnice (by simp)
    have h1 : (joinSpace ((c₀ :: w₀) :: ws')).dropWhile isPySpace =
        joinSpace ((c₀ :: w₀) :: ws') := by
      rw [hjoin]
      simp [List.dropWhile_cons, hc₀]
    have h2 : (joinSpace ((c₀ :: w₀) :: ws')).reverse.dropWhile isPySpace =
        (joinSpace ((c₀ :: w₀) :: ws')).reverse := by
      rw [hrev]
      simp [List.dropWhile_cons, hcns]
    unfold pyStrip
    rw [h1, h2, List.reverse_reverse]

/-- Lowering distributes over the space join. -/
theorem pyLower_join : ∀ ws, pyLower (joinSpace ws) = joinSpace (ws.map pyLower) := by
  intro ws
  induction ws with
  | nil => rfl
  | cons w ws' ih =>
    cases ws' with
    | nil => rfl
    | cons w' ws'' =>
      have hsp : pyLowerChar ' ' = ' ' := by decide
      show pyLower (w ++ ' ' :: joinSpace (w' :: ws'')) =
        pyLower w ++ ' ' :: joinSpace (List.map pyLower (w' :: ws''))
      simp only [pyLower, List.map_append, List.map_cons, hsp]
      simp only [pyLower] at ih
      rw [ih]
      simp [pyLower]

/-- Every character of a normalized name is inert: it decomposes to itself,
is no combining mark, is already lowered, and survives the keep filter. -/
theorem normalize_chars (l : List Char) :
    ∀ c ∈ normalize_name l,
      nfdChar c = [c] ∧ isMn c = false ∧ pyLowerChar c = c ∧ keepChar c = true := by
  intro c hc
  simp only [normalize_name] at hc
  have hc1 := mem_of_pyStrip c _ hc
  simp only [pyLower] at hc1
  obtain ⟨d, hd, rfl⟩ := List.mem_map.mp hc1
  rcases mem_joinSpace_elim d _ hd with rfl | ⟨w, hw, hdw⟩
  · refine ⟨by decide, by decide, by decide, by decide⟩
  · rw [splitWs] at hw
    have hword := splitWsAux_words _ [] (by simp) w hw
    have hd3 : d ∈ (stripNameTail (deaccent l)).filter keepChar :=
      ((hword.2 d hdw).2).resolve_left (by simp)
    have hdkeep : keepChar d = true := (List.mem_filter.mp hd3).2
    have hd2 : d ∈ stripNameTail (deaccent l) := (List.mem_filter.mp hd3).1
    have hd1 : d ∈ deaccent l := by
      unfold stripNameTail at hd2
      split at hd2
      · exact List.Sublist.mem hd2 (List.take_sublist _ _)
      · exact hd2
    have hdmn : isMn d = false := by
      unfold deaccent at hd1
      have := (List.mem_filter.mp hd1).2
      simpa using this
    have hdnfd : nfdChar d = [d] := by
      unfold deaccent at hd1
      obtain ⟨a, ha, hda⟩ := List.mem_flatMap.mp (List.mem_filter.mp hd1).1
      exact nfd_stable a d hda hdmn
    cases hfind : assocFind asciiLowerTable d with
    | none =>
      have heq : pyLowerChar d = d := by unfold pyLowerChar; rw [hfind]; rfl
      rw [heq]
      exact ⟨hdnfd, hdmn, heq, hdkeep⟩
    | some v =>
      have hv := lowerTable_out (d, v) (assocFind_mem _ _ _ hfind)
      have heq : pyLowerChar d = v := by unfold pyLowerChar; rw [hfind]; rfl
      rw [heq]
      exact ⟨hv.1, hv.2.1, hv.2.2.1, hv.2.2.2.1⟩

/-- Deaccenting is the identity on lists of inert characters. -/
theorem deaccent_id_of (l : List Char)
    (h : ∀ c ∈ l, nfdChar c = [c] ∧ isMn c = false) : deaccent l = l := by
  unfold deaccent
  rw [flatMap_self_of nfdChar _ (fun c hc => (h c hc).1)]
  exact List.filter_eq_self.mpr (fun c hc => by simp [(h c hc).2])

/-- Suffix stripping is the identity on an already-lowered string that ends
in no suffix token. -/
theorem stripNameTail_id_of (l : List Char) (hlower : pyLower l = l)
    (h : ∀ suf ∈ NAME_SUFFIXES, endsWithList l suf = false) : stripNameTail l = l := by
  unfold stripNameTail
  rw [hlower]
  rw [List.find?_eq_none.mpr (fun suf hsuf => by simp [h suf hsuf])]

/-- Claim C5 (amended): normalization is idempotent on every name whose
normalized form does not still end in a generational suffix token; the
suffix pass is the only non-idempotent stage, because it strips one suffix
per call and is applied after the punctuation removal that can create a
fresh trailing suffix. -/
theorem normalize_name_idempotent_without_trailing_suffix (n : List Char)
    (h : ∀ suf ∈ NAME_SUFFIXES, endsWithList (normalize_name n) suf = false) :
    normalize_name (normalize_name n) = normalize_name n := by
  have hnice0 : ∀ w ∈ splitWs ((stripNameTail (deaccent n)).filter keepChar),
      w ≠ [] ∧ ∀ c ∈ w, isPySpace c = false := by
    intro w hw
    rw [splitWs] at hw
    have hword := splitWsAux_words _ [] (by simp) w hw
    exact ⟨hword.1, fun c hc => (hword.2 c hc).1⟩
  have hnice1 : ∀ w ∈ (splitWs ((stripNameTail (deaccent n)).filter keepChar)).map pyLower,
      w ≠ [] ∧ ∀ c ∈ w, isPySpace c = false := by
    intro w hw
    obtain ⟨u, hu, rfl⟩ := List.mem_map.mp hw
    obtain ⟨hune, huns⟩ := hnice0 u hu
    refine ⟨by simp [pyLower, hune], ?_⟩
    intro c hc
    simp only [pyLower] at hc
    obtain ⟨d, hd, rfl⟩ := List.mem_map.mp hc
    exact pyLowerChar_nonspace d (huns d hd)
  have hrjoin : normalize_name n =
      joinSpace ((splitWs ((stripNameTail (deaccent n)).filter keepChar)).map pyLower) := by
    simp only [normalize_name]
    rw [pyLower_join, pyStrip_join _ hnice1]
  have hchars := normalize_chars n
  rw [hrjoin] at h hchars ⊢
  have hA : deaccent
      (joinSpace ((splitWs ((stripNameTail (deaccent n)).filter keepChar)).map pyLower)) =
      joinSpace ((splitWs ((stripNameTail (deaccent n)).filter keepChar)).map pyLower) :=
    deaccent_id_of _ (fun c hc => ⟨(hchars c hc).1, (hchars c hc).2.1⟩)
  have hlower : pyLower
      (joinSpace ((splitWs ((stripNameTail (deaccent n)).filter keepChar)).map pyLower)) =
      joinSpace ((splitWs ((stripNameTail (deaccent n)).filter keepChar)).map pyLower) := by
    unfold pyLower
    exact map_self_of _ _ (fun c hc => (hchars c hc).2.2.1)
  have hB : stripNameTail
      (joinSpace ((splitWs ((stripNameTail (deaccent n)).filter keepChar)).map pyLower)) =
      joinSpace ((splitWs ((stripNameTail (deaccent n)).filter keepChar)).map pyLower) :=
    stripNameTail_id_of _ hlower h
  have hC :
      (joinSpace ((splitWs ((stripNameTail (deaccent n)).filter keepChar)).map pyLower)).filter
        keepChar =
      joinSpace ((splitWs ((stripNameTail (deaccent n)).filter keepChar)).map pyLower) :=
    List.filter_eq_self.mpr (fun c hc => (hchars c hc).2.2.2)
  simp only [normalize_name]
  rw [hA, hB, hC]
  rw [splitWs_join _ hnice1]
  rw [pyLower_join, pyStrip_join _ (by
    intro w hw
    obtain ⟨u, hu, rfl⟩ := List.mem_map.mp hw
    obtain ⟨hune, huns⟩ := hnice1 u hu
    refine ⟨by simp [pyLower, hune], ?_⟩
    intro c hc
    simp only [pyLower] at hc
    obtain ⟨d, hd, rfl⟩ := List.mem_map.mp hc
    exact pyLowerChar_nonspace d (huns d hd))]
  rw [map_self_of pyLower _ (fun w hw => by
    unfold pyLower
    exact map_self_of _ _ (fun c hc =>
      (hchars c (mem_joinSpace_intro c _ w hw hc)).2.2.1))]

/-- Witness for C5's amended theorem: a name with accent, punctuation, and
one trailing suffix normalizes to a suffix-free form and is idempotent. -/
theorem normalize_name_idempotent_witness :
    normalize_name (normalize_name "José Ramírez Jr.".toList) =
      normalize_name "José Ramírez Jr.".toList :=
  normalize_name_idempotent_without_trailing_suffix _ (by decide)

/-- Claim C5 counterexample: a name with two trailing generational
suffixes is not normalized idempotently - the first pass strips one
suffix, leaving smith jr, and a second pass strips again to smith. -/
theorem normalize_name_not_idempotent :
    normalize_name (normalize_name "Smith Jr. Jr.".toList) ≠
      normalize_name "Smith Jr. Jr.".toList := by decide

end MLB
